import Mathlib

/-!
Shallow embedding of the workflow orchestration engine of the
Automation-Framework repository (src/workflow.py), together with theorems
settling the claims about it.

The engine drives a Task through a plan-approval loop and a
step-execution-with-review loop, delegating the actual planning, execution
and reviewing to collaborator agents.  Collaborator responses are loosely
typed Python dictionaries (JSON values); the engine inspects them through
Python truthiness (`if review.get("approved"):` and similar), so the
embedding starts from a model of Python runtime values.
-/

namespace AutomationFramework

/-- A Python runtime value, as exchanged between the engine and the
collaborator agents (JSON-shaped: the agents return `json.loads` output). -/
inductive PyVal where
  | none
  | bool (b : Bool)
  | int (n : Int)
  | str (s : String)
  | list (xs : List PyVal)
  | dict (entries : List (String × PyVal))

/-- Python truthiness: `None`, `False`, `0`, `""`, `[]`, and an empty dict
are falsy; everything else is truthy. -/
def PyVal.truthy : PyVal → Bool
  | .none => false
  | .bool b => b
  | .int n => n != 0
  | .str s => s != ""
  | .list xs => !xs.isEmpty
  | .dict d => !d.isEmpty

/-- Whether the value is a Python `list` (`isinstance(v, list)`). -/
def PyVal.isList : PyVal → Bool
  | .list _ => true
  | _ => false

/-- A Python dictionary with string keys, in insertion order. -/
abbrev Dict := List (String × PyVal)

/-- Python `d.get(k)`: the stored value, or `None` when the key is absent. -/
def dictGet (d : Dict) (k : String) : PyVal :=
  match d.find? (fun e => e.1 == k) with
  | Option.none => .none
  | Option.some e => e.2

/-- Python `d.setdefault(k, v)`: keeps `d` unchanged when `k` is present,
otherwise appends the pair at the end (insertion order). -/
def dictSetdefault (d : Dict) (k : String) (v : PyVal) : Dict :=
  if d.any (fun e => e.1 == k) then d else d ++ [(k, v)]

/-- A task record (`Task` dataclass in src/workflow.py). -/
structure Task where
  name : String
  objective : String
  context : Option String := Option.none
  deliverable : Option String := Option.none
  constraints : Option (List String) := Option.none

/-- Outcome of a single execution attempt of one step
(`StepResult` dataclass).  The `step_id` field is the value stored under
the key "id" of the step dictionary (guaranteed present by `setdefault`). -/
structure StepResult where
  step_id : PyVal
  step : Dict
  output : Dict
  review : Dict
  attempt : Nat

/-- Aggregated information for a completed task run
(`TaskRunResult` dataclass). -/
structure TaskRunResult where
  task : Task
  plan : Dict
  step_results : List StepResult
  reviewer_summary : Dict
  coordinator_summary : Option String

/-- The collaborator agents seen by the engine, as opaque request/response
functions (PlannerAgent.propose_plan, ReviewerAgent.review_plan,
ExecutorAgent.execute_step, ReviewerAgent.review_step,
ReviewerAgent.final_review, CoordinatorAgent.synthesise_outcome).
The second argument of `propose_plan` is the feedback, the third the
previous plan; `execute_step` receives the prior approved step results and
the feedback from the previous rejected attempt of the same step;
`review_plan` and `review_step` receive the 1-based iteration / attempt. -/
structure Agents where
  propose_plan : Task → PyVal → Option Dict → Dict
  review_plan : Task → Dict → Nat → Dict
  execute_step : Task → Dict → List StepResult → PyVal → Dict
  review_step : Task → Dict → Dict → Nat → Dict
  final_review : Task → Dict → List StepResult → Dict
  coordinator : Option (Task → Dict → List StepResult → Dict → String)

/-- The configured bounds of `AutomationWorkflow.__init__`. -/
structure Config where
  max_plan_iterations : Nat := 3
  max_step_iterations : Nat := 3
  max_replan_attempts : Nat := 2

/-- One collaborator call issued by the engine, recorded in order.  The
arguments recorded are the ones the engine computed and passed. -/
inductive Event where
  | proposePlan (feedback : PyVal) (previous_plan : Option Dict)
  | reviewPlan (plan : Dict) (iteration : Nat)
  | executeStep (step : Dict) (prior_results : List StepResult) (feedback : PyVal)
  | reviewStep (step : Dict) (output : Dict) (attempt : Nat)
  | finalReview (plan : Dict) (results : List StepResult)
  | synthesise (plan : Dict) (results : List StepResult) (summary : Dict)

/-- The fatal errors the engine can raise.  Each carries the data that the
corresponding Python message interpolates, so the error identifies the task
or the step and the bound that was hit. -/
inductive WfError where
  /-- ValueError: the planner response must contain a steps array. -/
  | malformedSteps
  /-- RuntimeError: the step was not approved after the maximum attempts;
  the message names the step id and `max_step_iterations`. -/
  | stepNotApproved (step_id : PyVal) (max_attempts : Nat)
  /-- RuntimeError: exceeded maximum execution replans for the task. -/
  | replanBound (task_name : String)
  /-- RuntimeError: exceeded maximum plan attempts for the task. -/
  | planBound (task_name : String)
  /-- TypeError: `dict(raw_step)` on a non-mapping step element. -/
  | typeError

/-- Python `dict(raw_step)` on an element of the steps array.  It succeeds
on a mapping; a non-mapping element makes `dict()` raise `TypeError`
(Python also accepts iterables of pairs, which planner responses never
are, being JSON objects). -/
def pyDictOf : PyVal → Except WfError Dict
  | .dict d => Except.ok d
  | _ => Except.error WfError.typeError

mutual

/-- Python `repr()` restricted to the JSON-shaped values above.  Strings
are rendered between single quotes (Python picks the quote style from the
content; the single-quote form is the common case and the difference does
not affect any claim). -/
def PyVal.pyRepr : PyVal → String
  | .none => "None"
  | .bool true => "True"
  | .bool false => "False"
  | .int n => toString n
  | .str s => "\x27" ++ s ++ "\x27"
  | .list xs => "[" ++ String.intercalate ", " (pyReprList xs) ++ "]"
  | .dict d => "\x7b" ++ String.intercalate ", " (pyReprEntries d) ++ "\x7d"

def pyReprList : List PyVal → List String
  | [] => []
  | x :: xs => x.pyRepr :: pyReprList xs

def pyReprEntries : List (String × PyVal) → List String
  | [] => []
  | e :: es => ("\x27" ++ e.1 ++ "\x27: " ++ e.2.pyRepr) :: pyReprEntries es

end

/-- Python `str()`: the string itself for a string, `repr()` otherwise.
This is what an f-string interpolation applies to each value. -/
def PyVal.pyStr : PyVal → String
  | .str s => s
  | v => v.pyRepr

/-- Python `d.get(k, default)`: the stored value when the key is present
(even when that value is `None`), the default otherwise. -/
def dictGetD (d : Dict) (k : String) (default : PyVal) : PyVal :=
  match d.find? (fun e => e.1 == k) with
  | Option.none => default
  | Option.some e => e.2

/-- Translation of `TaskRunResult.to_markdown`: the report document built line by line
and joined with newlines.  The `plan_overview` and reviewer `feedback`
values are appended to the line list directly in Python, so a non-string
value there would make `str.join` raise; they are rendered through
`pyStr`, which is the identity on the string-valued case the source
exercises. -/
def TaskRunResult.to_markdown (r : TaskRunResult) : String :=
  let lines : List String :=
    ["# Task Report: " ++ r.task.name, "", "**Objective:** " ++ r.task.objective]
  let lines := lines ++ (match r.task.context with
    | Option.some c => if c != "" then ["**Context:** " ++ c] else []
    | Option.none => [])
  let lines := lines ++ (match r.task.deliverable with
    | Option.some dv => if dv != "" then ["**Expected Deliverable:** " ++ dv] else []
    | Option.none => [])
  let lines := lines ++
    ["", "## Plan Overview",
     (dictGetD r.plan "plan_overview" (.str "No overview provided.")).pyStr, ""]
  let lines := lines ++ ["## Execution Timeline"]
  let lines := lines ++ (if r.step_results.isEmpty then
      ["No steps were executed."]
    else
      r.step_results.map (fun result =>
        let status := if (dictGet result.review "approved").truthy
          then "Approved" else "Pending"
        "- **" ++ result.step_id.pyStr ++ "** (attempt " ++
          toString result.attempt ++ ", " ++ status ++ "): " ++
          (dictGetD result.output "summary" (.str "No summary available")).pyStr))
  let lines := lines ++ [""]
  let lines := lines ++ ["## Reviewer Verdict",
    (dictGetD r.reviewer_summary "feedback"
      (.str "No reviewer feedback recorded.")).pyStr, ""]
  let lines := lines ++ (match r.coordinator_summary with
    | Option.some cs => if cs != "" then ["## Coordinator Summary", cs, ""] else []
    | Option.none => [])
  String.intercalate "\n" lines

/-- The attempt loop of `_execute_plan` for one step
(`for attempt in range(1, self.max_step_iterations + 1)`):
execute the step, review the output, record a `StepResult`; on an approved
review append it to the approved results and break; on a
`requires_replan` review set the replan flag and break; otherwise carry
the review feedback into the next attempt.  Returns the emitted events,
the recorded `step_attempts` in order, the updated approved results and
the `require_replan` flag.  `attempt` is the 1-based number of the next
attempt and `remaining` the number of loop iterations left. -/
def stepAttemptLoop (ag : Agents) (t : Task) (step : Dict)
    (approved_results : List StepResult) (attempt_feedback : PyVal)
    (attempt : Nat) : Nat → List Event × List StepResult × List StepResult × Bool
  | 0 => ([], [], approved_results, false)
  | rem + 1 =>
    let execution_output := ag.execute_step t step approved_results attempt_feedback
    let step_review := ag.review_step t step execution_output attempt
    let step_result : StepResult :=
      { step_id := dictGet step "id", step := step, output := execution_output,
        review := step_review, attempt := attempt }
    let evs : List Event :=
      [Event.executeStep step approved_results attempt_feedback,
       Event.reviewStep step execution_output attempt]
    if (dictGet step_review "approved").truthy then
      (evs, [step_result], approved_results ++ [step_result], false)
    else if (dictGet step_review "requires_replan").truthy then
      (evs, [step_result], approved_results, true)
    else
      let r := stepAttemptLoop ag t step approved_results
        (dictGet step_review "feedback") (attempt + 1) rem
      (evs ++ r.1, step_result :: r.2.1, r.2.2.1, r.2.2.2)

/-- Intermediate outcome of the step loop of `_execute_plan`: either a
replan signal with the feedback of the last recorded attempt (the Python
`return None, feedback`), or completion with the full ordered attempt
history `all_results`. -/
inductive PlanExec where
  | replan (feedback : PyVal)
  | completed (all_results : List StepResult)

/-- The step loop of `_execute_plan`
(`for index, raw_step in enumerate(steps, start=1)`): copy the raw step,
default its id to `step-<index>`, run the attempt loop, extend
`all_results` with every recorded attempt, then return a replan signal,
raise the step bound error, or advance to the next step. -/
def stepsLoop (ag : Agents) (cfg : Config) (t : Task) :
    List PyVal → Nat → List StepResult → List StepResult →
    List Event × Except WfError PlanExec
  | [], _, all_results, _ => ([], Except.ok (PlanExec.completed all_results))
  | raw_step :: rest, index, all_results, approved_results =>
    match pyDictOf raw_step with
    | Except.error e => ([], Except.error e)
    | Except.ok d =>
      let step := dictSetdefault d "id" (.str ("step-" ++ toString index))
      let r := stepAttemptLoop ag t step approved_results .none 1
        cfg.max_step_iterations
      let evs := r.1
      let step_attempts := r.2.1
      let approved' := r.2.2.1
      let require_replan := r.2.2.2
      let all_results := all_results ++ step_attempts
      if require_replan then
        let feedback := match step_attempts.getLast? with
          | Option.some sr => dictGet sr.review "feedback"
          | Option.none => PyVal.none
        (evs, Except.ok (PlanExec.replan feedback))
      else
        let last_approved := match step_attempts.getLast? with
          | Option.some sr => (dictGet sr.review "approved").truthy
          | Option.none => false
        if !last_approved then
          (evs, Except.error
            (WfError.stepNotApproved (dictGet step "id") cfg.max_step_iterations))
        else
          let r' := stepsLoop ag cfg t rest (index + 1) all_results approved'
          (evs ++ r'.1, r'.2)

/-- Translation of `AutomationWorkflow._execute_plan`: validate the steps value
(`steps = plan.get("steps") or []` then the `isinstance(steps, list)`
check), run the step loop, and on completion request the final review and
the optional coordinator synthesis, assembling the `TaskRunResult`.
Returns `(some result, None)` on success and `(None, feedback)` on a
replan signal, mirroring the Python pair. -/
def executePlan (ag : Agents) (cfg : Config) (t : Task) (plan : Dict) :
    List Event × Except WfError (Option TaskRunResult × PyVal) :=
  let stepsVal := dictGet plan "steps"
  let steps := if stepsVal.truthy then stepsVal else PyVal.list []
  match steps with
  | PyVal.list stepList =>
    match stepsLoop ag cfg t stepList 1 [] [] with
    | (evs, Except.error e) => (evs, Except.error e)
    | (evs, Except.ok (PlanExec.replan feedback)) =>
      (evs, Except.ok (Option.none, feedback))
    | (evs, Except.ok (PlanExec.completed all_results)) =>
      let reviewer_summary := ag.final_review t plan all_results
      let coordinator_summary : Option String :=
        match ag.coordinator with
        | Option.some synth =>
          Option.some (synth t plan all_results reviewer_summary)
        | Option.none => Option.none
      let synthEvs : List Event :=
        match ag.coordinator with
        | Option.some _ => [Event.synthesise plan all_results reviewer_summary]
        | Option.none => []
      let result : TaskRunResult :=
        { task := t, plan := plan, step_results := all_results,
          reviewer_summary := reviewer_summary,
          coordinator_summary := coordinator_summary }
      (evs ++ [Event.finalReview plan all_results] ++ synthEvs,
       Except.ok (Option.some result, PyVal.none))
  | _ => ([], Except.error WfError.malformedSteps)

/-- The plan-approval loop of `AutomationWorkflow.run_task`
(`while plan_attempt < self.max_plan_iterations`), with
`fuel = max_plan_iterations - plan_attempt` so that the loop guard is
`fuel > 0`.  On a rejected plan review the rejecting feedback and the plan
are carried into the next proposal.  On an approved review the plan is
executed; the inner `while True` of the source runs its body exactly once
(every path breaks or returns), so a replan signal increments the
cycle-local `replan_attempts` counter from 0 to 1, raises the replan bound
error when `1 > max_replan_attempts`, and otherwise folds the execution
feedback (`execution_feedback or "Reviewer requested a re-plan during
execution."`) and the plan into the next planning round.  Exhausted fuel
is the `raise` after the loop. -/
def planLoop (ag : Agents) (cfg : Config) (t : Task) :
    PyVal → Option Dict → Nat → Nat → List Event × Except WfError TaskRunResult
  | _, _, _, 0 => ([], Except.error (WfError.planBound t.name))
  | feedback, previous_plan, plan_attempt, fuel + 1 =>
    let plan := ag.propose_plan t feedback previous_plan
    let plan_review := ag.review_plan t plan (plan_attempt + 1)
    let evs : List Event :=
      [Event.proposePlan feedback previous_plan,
       Event.reviewPlan plan (plan_attempt + 1)]
    if !(dictGet plan_review "approved").truthy then
      let r := planLoop ag cfg t (dictGet plan_review "feedback")
        (Option.some plan) (plan_attempt + 1) fuel
      (evs ++ r.1, r.2)
    else
      match executePlan ag cfg t plan with
      | (evs₂, Except.error e) => (evs ++ evs₂, Except.error e)
      | (evs₂, Except.ok (Option.some run_result, _)) =>
        (evs ++ evs₂, Except.ok run_result)
      | (evs₂, Except.ok (Option.none, execution_feedback)) =>
        let replan_attempts := 0 + 1
        if replan_attempts > cfg.max_replan_attempts then
          (evs ++ evs₂, Except.error (WfError.replanBound t.name))
        else
          let feedback' := if execution_feedback.truthy then execution_feedback
            else PyVal.str "Reviewer requested a re-plan during execution."
          let r := planLoop ag cfg t feedback' (Option.some plan)
            (plan_attempt + 1) fuel
          (evs ++ evs₂ ++ r.1, r.2)

/-- Translation of `AutomationWorkflow.run_task`: the plan-approval loop started with no
feedback, no previous plan, and `plan_attempt = 0`. -/
def run_task (ag : Agents) (cfg : Config) (t : Task) :
    List Event × Except WfError TaskRunResult :=
  planLoop ag cfg t PyVal.none Option.none 0 cfg.max_plan_iterations

/-- Whether an event is a `propose_plan` call. -/
def Event.isProposePlan : Event → Bool
  | .proposePlan _ _ => true
  | _ => false

/-- Whether an event is a `review_plan` call. -/
def Event.isReviewPlan : Event → Bool
  | .reviewPlan _ _ => true
  | _ => false

/-- Whether an event is an `execute_step` call. -/
def Event.isExecuteStep : Event → Bool
  | .executeStep _ _ _ => true
  | _ => false

/-- Whether an event is a `review_step` call. -/
def Event.isReviewStep : Event → Bool
  | .reviewStep _ _ _ => true
  | _ => false

/-- The step, output and attempt number of a `review_step` call, when the
event is one.  One such call happens per execution attempt, so these
triples enumerate the execution attempts of a trace. -/
def Event.attemptData : Event → Option (Dict × Dict × Nat)
  | .reviewStep step out attempt => Option.some (step, out, attempt)
  | _ => Option.none

/-- The step, output and attempt number recorded in a `StepResult`. -/
def StepResult.attemptData (sr : StepResult) : Dict × Dict × Nat :=
  (sr.step, sr.output, sr.attempt)

/-- The plan proposed on 0-based planning round `j` of `run_task`,
assuming the reviews of all earlier rounds rejected: round 0 carries no
feedback and no previous plan, and round `j+1` carries the feedback of the
round-`j` review together with the round-`j` plan. -/
def proposedPlan (ag : Agents) (t : Task) : Nat → Dict
  | 0 => ag.propose_plan t PyVal.none Option.none
  | j + 1 =>
    ag.propose_plan t
      (dictGet (ag.review_plan t (proposedPlan ag t j) (j + 1)) "feedback")
      (Option.some (proposedPlan ag t j))

/-- The plan review of 0-based planning round `j` (1-based iteration
`j+1`), under the same all-earlier-rounds-rejected assumption. -/
def planReviewAt (ag : Agents) (t : Task) (j : Nat) : Dict :=
  ag.review_plan t (proposedPlan ag t j) (j + 1)

/-- The feedback argument of the round-`j` plan proposal. -/
def fbAt (ag : Agents) (t : Task) : Nat → PyVal
  | 0 => PyVal.none
  | j + 1 => dictGet (planReviewAt ag t j) "feedback"

/-- The previous-plan argument of the round-`j` plan proposal. -/
def prevAt (ag : Agents) (t : Task) : Nat → Option Dict
  | 0 => Option.none
  | j + 1 => Option.some (proposedPlan ag t j)

/-- The events of `n` consecutive planning rounds starting at round `s`:
each round is one `propose_plan` call followed by one `review_plan` call,
with the rejected plan and its feedback carried into the next round. -/
def planSeg (ag : Agents) (t : Task) (s : Nat) : Nat → List Event
  | 0 => []
  | n + 1 =>
    Event.proposePlan (fbAt ag t s) (prevAt ag t s) ::
      Event.reviewPlan (proposedPlan ag t s) (s + 1) :: planSeg ag t (s + 1) n

/-! ### Concrete fixtures

Small deterministic collaborator functions used to evaluate the engine on
concrete runs (witnesses and counterexamples). -/

/-- A concrete task. -/
def t0 : Task := { name := "t", objective := "demo" }

/-- A step dictionary with id `s1`. -/
def stepS1 : Dict := [("id", PyVal.str "s1")]

/-- A step dictionary with id `s2`. -/
def stepS2 : Dict := [("id", PyVal.str "s2")]

/-- An execution output with a summary. -/
def outDone : Dict := [("summary", PyVal.str "done")]

/-- An approving review. -/
def revApprove : Dict :=
  [("approved", PyVal.bool true), ("requires_replan", PyVal.bool false),
   ("feedback", PyVal.str "ok")]

/-- A rejecting review without a replan signal. -/
def revReject (fb : String) : Dict :=
  [("approved", PyVal.bool false), ("requires_replan", PyVal.bool false),
   ("feedback", PyVal.str fb)]

/-- A rejecting review with a replan signal and no feedback key, so that
its feedback reads as `None`. -/
def revReplanSilent : Dict :=
  [("approved", PyVal.bool false), ("requires_replan", PyVal.bool true)]

/-- A rejecting review with a replan signal and a truthy feedback. -/
def revReplanLoud : Dict :=
  [("approved", PyVal.bool false), ("requires_replan", PyVal.bool true),
   ("feedback", PyVal.str "redo")]

/-- A review that sets both `approved` and `requires_replan`. -/
def revBoth : Dict :=
  [("approved", PyVal.bool true), ("requires_replan", PyVal.bool true),
   ("feedback", PyVal.str "odd")]

/-- A rejecting plan review. -/
def revRejectPlan : Dict :=
  [("approved", PyVal.bool false), ("feedback", PyVal.str "fix")]

/-- A final review summary. -/
def finalRev : Dict :=
  [("approved", PyVal.bool true), ("feedback", PyVal.str "good")]

/-- A plan with the single step `s1`. -/
def planS1 : Dict :=
  [("plan_overview", PyVal.str "o"), ("steps", PyVal.list [PyVal.dict stepS1])]

/-- A plan with the single step `s2`. -/
def planS2 : Dict :=
  [("plan_overview", PyVal.str "o2"), ("steps", PyVal.list [PyVal.dict stepS2])]

/-- A plan with an empty steps array. -/
def planEmpty : Dict :=
  [("plan_overview", PyVal.str "o"), ("steps", PyVal.list [])]

/-- Collaborators that approve everything on the first try. -/
def agHappy : Agents :=
  { propose_plan := fun _ _ _ => planS1
    review_plan := fun _ _ _ => revApprove
    execute_step := fun _ _ _ _ => outDone
    review_step := fun _ _ _ _ => revApprove
    final_review := fun _ _ _ => finalRev
    coordinator := Option.none }

/-- Collaborators that signal a replan (with truthy feedback) on the first
plan, whose steps all carry id `s1`, and approve the revised plan `s2`. -/
def agReplanOnce : Agents :=
  { propose_plan := fun _ _ prev =>
      match prev with
      | Option.none => planS1
      | Option.some _ => planS2
    review_plan := fun _ _ _ => revApprove
    execute_step := fun _ _ _ _ => outDone
    review_step := fun _ step _ _ =>
      match dictGet step "id" with
      | PyVal.str s => if s == "s2" then revApprove else revReplanLoud
      | _ => revReplanLoud
    final_review := fun _ _ _ => finalRev
    coordinator := Option.none }

/-- As `agReplanOnce`, but the replanning step review carries no feedback
key, so its feedback reads as `None`. -/
def agSilentReplan : Agents :=
  { propose_plan := fun _ _ prev =>
      match prev with
      | Option.none => planS1
      | Option.some _ => planS2
    review_plan := fun _ _ _ => revApprove
    execute_step := fun _ _ _ _ => outDone
    review_step := fun _ step _ _ =>
      match dictGet step "id" with
      | PyVal.str s => if s == "s2" then revApprove else revReplanSilent
      | _ => revReplanSilent
    final_review := fun _ _ _ => finalRev
    coordinator := Option.none }

/-- Collaborators whose plan review rejects iteration 1 and approves from
iteration 2 on, over a zero-step plan. -/
def agRejectThenApprove : Agents :=
  { propose_plan := fun _ _ _ => planEmpty
    review_plan := fun _ _ iteration =>
      if iteration ≤ 1 then revRejectPlan else revApprove
    execute_step := fun _ _ _ _ => outDone
    review_step := fun _ _ _ _ => revApprove
    final_review := fun _ _ _ => finalRev
    coordinator := Option.none }

/-- Collaborators whose step review always rejects without a replan
signal. -/
def agStubborn : Agents :=
  { propose_plan := fun _ _ _ => planS1
    review_plan := fun _ _ _ => revApprove
    execute_step := fun _ _ _ _ => outDone
    review_step := fun _ _ _ _ => revReject "retry"
    final_review := fun _ _ _ => finalRev
    coordinator := Option.none }

/-- Collaborators whose step review sets both `approved` and
`requires_replan`. -/
def agBothFlags : Agents :=
  { propose_plan := fun _ _ _ => planS1
    review_plan := fun _ _ _ => revApprove
    execute_step := fun _ _ _ _ => outDone
    review_step := fun _ _ _ _ => revBoth
    final_review := fun _ _ _ => finalRev
    coordinator := Option.none }

/-- Collaborators whose step review approves from attempt 2 on. -/
def agSecondTry : Agents :=
  { propose_plan := fun _ _ _ => planS1
    review_plan := fun _ _ _ => revApprove
    execute_step := fun _ _ _ _ => outDone
    review_step := fun _ _ _ attempt =>
      if 2 ≤ attempt then revApprove else revReject "again"
    final_review := fun _ _ _ => finalRev
    coordinator := Option.none }

/-- Collaborators proposing a zero-step plan and approving everything. -/
def agEmptyPlan : Agents :=
  { propose_plan := fun _ _ _ => planEmpty
    review_plan := fun _ _ _ => revApprove
    execute_step := fun _ _ _ _ => outDone
    review_step := fun _ _ _ _ => revApprove
    final_review := fun _ _ _ => finalRev
    coordinator := Option.none }

/-- The default configuration (3 plan iterations, 3 step iterations,
2 replan attempts). -/
def cfgDef : Config := {}

/-- A configuration with a single plan iteration. -/
def cfgOnePlan : Config := { max_plan_iterations := 1 }

/-- A configuration with a zero replan allowance. -/
def cfgNoReplan : Config := { max_replan_attempts := 0 }

/-- The step result of an approved first attempt of `s1`. -/
def srS1ok : StepResult :=
  { step_id := PyVal.str "s1", step := stepS1, output := outDone,
    review := revApprove, attempt := 1 }

/-- The step result of an approved first attempt of `s2`. -/
def srS2ok : StepResult :=
  { step_id := PyVal.str "s2", step := stepS2, output := outDone,
    review := revApprove, attempt := 1 }

/-- The step result of a first attempt reviewed with both flags set. -/
def srBoth : StepResult :=
  { step_id := PyVal.str "s1", step := stepS1, output := outDone,
    review := revBoth, attempt := 1 }

/-- The step result of attempt `a` of `s1` rejected with feedback
`retry`. -/
def srRetry (a : Nat) : StepResult :=
  { step_id := PyVal.str "s1", step := stepS1, output := outDone,
    review := revReject "retry", attempt := a }

/-- The step result of the first attempt of `s1` rejected with feedback
`again`. -/
def srAgain1 : StepResult :=
  { step_id := PyVal.str "s1", step := stepS1, output := outDone,
    review := revReject "again", attempt := 1 }

/-- The step result of the approved second attempt of `s1`. -/
def srAgain2 : StepResult :=
  { step_id := PyVal.str "s1", step := stepS1, output := outDone,
    review := revApprove, attempt := 2 }

/-- The step result of the first attempt of `s1` reviewed with a loud
replan signal. -/
def srReplanLoud : StepResult :=
  { step_id := PyVal.str "s1", step := stepS1, output := outDone,
    review := revReplanLoud, attempt := 1 }

/-- The step result of the first attempt of `s1` reviewed with a silent
replan signal. -/
def srReplanSilent : StepResult :=
  { step_id := PyVal.str "s1", step := stepS1, output := outDone,
    review := revReplanSilent, attempt := 1 }

/-- The run result of the `agSecondTry` fixture: the rejected first
attempt and the approved second attempt of `s1` are both retained. -/
def resSecondTry : TaskRunResult :=
  { task := t0, plan := planS1, step_results := [srAgain1, srAgain2],
    reviewer_summary := finalRev, coordinator_summary := Option.none }

/-- The run result of the `agReplanOnce` fixture: only the attempt made
under the final plan survives. -/
def resReplanOnce : TaskRunResult :=
  { task := t0, plan := planS2, step_results := [srS2ok],
    reviewer_summary := finalRev, coordinator_summary := Option.none }

/-- A concrete task run result. -/
def resSample : TaskRunResult :=
  { task := t0, plan := planS1,
    step_results := [{ step_id := PyVal.str "s1", step := stepS1,
                       output := outDone, review := revApprove, attempt := 1 }],
    reviewer_summary := finalRev, coordinator_summary := Option.none }

/-! ### Structural lemmas about the step attempt loop -/

/-- Every event the attempt loop emits concerns the step being attempted:
it is an `execute_step` or `review_step` call on that step. -/
theorem stepAttemptLoop_events (ag : Agents) (t : Task) (step : Dict) :
    ∀ rem app fb a, ∀ e ∈ (stepAttemptLoop ag t step app fb a rem).1,
      (∃ pr fb2, e = Event.executeStep step pr fb2) ∨
      (∃ out a2, e = Event.reviewStep step out a2) := by
  intro rem
  induction rem with
  | zero => intro app fb a e he; simp [stepAttemptLoop] at he
  | succ rem ih =>
    intro app fb a e he
    simp only [stepAttemptLoop] at he
    split at he
    · simp only [List.mem_cons, List.not_mem_nil, or_false] at he
      rcases he with h | h
      · exact Or.inl ⟨_, _, h⟩
      · exact Or.inr ⟨_, _, h⟩
    · split at he
      · simp only [List.mem_cons, List.not_mem_nil, or_false] at he
        rcases he with h | h
        · exact Or.inl ⟨_, _, h⟩
        · exact Or.inr ⟨_, _, h⟩
      · simp only [List.cons_append, List.nil_append, List.mem_cons] at he
        rcases he with h | h | h
        · exact Or.inl ⟨_, _, h⟩
        · exact Or.inr ⟨_, _, h⟩
        · exact ih app _ _ e h

/-- Every `execute_step` call of the attempt loop passes exactly the
approved results the loop was entered with: the prior-results context does
not change between attempts of one step. -/
theorem stepAttemptLoop_priors (ag : Agents) (t : Task) (step : Dict) :
    ∀ rem app fb a, ∀ st pr fb2,
      Event.executeStep st pr fb2 ∈ (stepAttemptLoop ag t step app fb a rem).1 →
      pr = app := by
  intro rem
  induction rem with
  | zero => intro app fb a st pr fb2 he; simp [stepAttemptLoop] at he
  | succ rem ih =>
    intro app fb a st pr fb2 he
    simp only [stepAttemptLoop] at he
    split at he
    · simp only [List.mem_cons, List.not_mem_nil, or_false] at he
      rcases he with h | h
      · cases h; rfl
      · exact absurd h (by simp)
    · split at he
      · simp only [List.mem_cons, List.not_mem_nil, or_false] at he
        rcases he with h | h
        · cases h; rfl
        · exact absurd h (by simp)
      · simp only [List.cons_append, List.nil_append, List.mem_cons] at he
        rcases he with h | h | h
        · cases h; rfl
        · exact absurd h (by simp)
        · exact ih app _ _ st pr fb2 h

/-- The review-step events of the attempt loop list exactly the recorded
attempts, in order, with the same step, output and attempt number: one
`StepResult` is recorded per execution attempt, approved or not. -/
theorem stepAttemptLoop_attemptData (ag : Agents) (t : Task) (step : Dict) :
    ∀ rem app fb a,
      (stepAttemptLoop ag t step app fb a rem).1.filterMap Event.attemptData =
        (stepAttemptLoop ag t step app fb a rem).2.1.map StepResult.attemptData := by
  intro rem
  induction rem with
  | zero => intro app fb a; simp [stepAttemptLoop]
  | succ rem ih =>
    intro app fb a
    simp only [stepAttemptLoop]
    split
    · simp [Event.attemptData, StepResult.attemptData]
    · split
      · simp [Event.attemptData, StepResult.attemptData]
      · simp only [List.cons_append, List.nil_append, List.filterMap_cons,
          Event.attemptData, List.map_cons]
        simp [ih, StepResult.attemptData]

/-- The attempt loop emits one `execute_step` event per recorded attempt. -/
theorem stepAttemptLoop_execCount (ag : Agents) (t : Task) (step : Dict) :
    ∀ rem app fb a,
      (stepAttemptLoop ag t step app fb a rem).1.countP Event.isExecuteStep =
        (stepAttemptLoop ag t step app fb a rem).2.1.length := by
  intro rem
  induction rem with
  | zero => intro app fb a; simp [stepAttemptLoop]
  | succ rem ih =>
    intro app fb a
    simp only [stepAttemptLoop]
    split
    · simp [List.countP_cons, Event.isExecuteStep]
    · split
      · simp [List.countP_cons, Event.isExecuteStep]
      · simp only [List.cons_append, List.nil_append, List.length_cons,
          List.countP_cons]
        rw [ih]
        simp [Event.isExecuteStep]

/-- The attempt loop emits one `review_step` event per recorded attempt. -/
theorem stepAttemptLoop_reviewCount (ag : Agents) (t : Task) (step : Dict) :
    ∀ rem app fb a,
      (stepAttemptLoop ag t step app fb a rem).1.countP Event.isReviewStep =
        (stepAttemptLoop ag t step app fb a rem).2.1.length := by
  intro rem
  induction rem with
  | zero => intro app fb a; simp [stepAttemptLoop]
  | succ rem ih =>
    intro app fb a
    simp only [stepAttemptLoop]
    split
    · simp [List.countP_cons, Event.isReviewStep]
    · split
      · simp [List.countP_cons, Event.isReviewStep]
      · simp only [List.cons_append, List.nil_append, List.length_cons,
          List.countP_cons]
        rw [ih]
        simp [Event.isReviewStep]

/-- The recorded attempts of the loop are numbered consecutively from the
starting attempt number: the last recorded attempt number plus one equals
the start plus the number of recorded attempts. -/
theorem stepAttemptLoop_lastAttempt (ag : Agents) (t : Task) (step : Dict) :
    ∀ rem app fb a sr,
      (stepAttemptLoop ag t step app fb a rem).2.1.getLast? = Option.some sr →
      sr.attempt + 1 = a + (stepAttemptLoop ag t step app fb a rem).2.1.length := by
  intro rem
  induction rem with
  | zero => intro app fb a sr h; simp [stepAttemptLoop] at h
  | succ rem ih =>
    intro app fb a sr h
    simp only [stepAttemptLoop] at h ⊢
    by_cases hap : (dictGet (ag.review_step t step (ag.execute_step t step app fb) a)
        "approved").truthy = true
    · rw [if_pos hap] at h ⊢
      dsimp only at h ⊢
      cases h
      simp
    · rw [if_neg hap] at h ⊢
      by_cases hrp : (dictGet (ag.review_step t step (ag.execute_step t step app fb) a)
          "requires_replan").truthy = true
      · rw [if_pos hrp] at h ⊢
        dsimp only at h ⊢
        cases h
        simp
      · rw [if_neg hrp] at h ⊢
        dsimp only at h ⊢
        rcases hq : (stepAttemptLoop ag t step app
            (dictGet (ag.review_step t step (ag.execute_step t step app fb) a)
              "feedback") (a + 1) rem).2.1 with _ | ⟨x, xs⟩
        · cases h
          simp [hq]
        · rw [hq, List.getLast?_cons_cons, ← hq] at h
          have hih := ih app _ (a + 1) sr h
          simp only [hq, List.length_cons] at hih ⊢
          omega

/-- If the loop exits with its last recorded attempt approved, no replan
is signalled and exactly that attempt is appended to the approved
results. -/
theorem stepAttemptLoop_lastApproved (ag : Agents) (t : Task) (step : Dict) :
    ∀ rem app fb a sr,
      (stepAttemptLoop ag t step app fb a rem).2.1.getLast? = Option.some sr →
      (dictGet sr.review "approved").truthy = true →
      (stepAttemptLoop ag t step app fb a rem).2.2.2 = false ∧
        (stepAttemptLoop ag t step app fb a rem).2.2.1 = app ++ [sr] := by
  intro rem
  induction rem with
  | zero => intro app fb a sr h; simp [stepAttemptLoop] at h
  | succ rem ih =>
    intro app fb a sr h hap
    simp only [stepAttemptLoop] at h ⊢
    by_cases hc : (dictGet (ag.review_step t step (ag.execute_step t step app fb) a)
        "approved").truthy = true
    · rw [if_pos hc] at h ⊢
      dsimp only at h ⊢
      cases h
      exact ⟨rfl, rfl⟩
    · rw [if_neg hc] at h ⊢
      by_cases hrp : (dictGet (ag.review_step t step (ag.execute_step t step app fb) a)
          "requires_replan").truthy = true
      · rw [if_pos hrp] at h ⊢
        dsimp only at h ⊢
        cases h
        exact absurd hap hc
      · rw [if_neg hrp] at h ⊢
        dsimp only at h ⊢
        rcases hq : (stepAttemptLoop ag t step app
            (dictGet (ag.review_step t step (ag.execute_step t step app fb) a)
              "feedback") (a + 1) rem).2.1 with _ | ⟨x, xs⟩
        · cases h
          simp only [hq, List.getLast_singleton] at hap
          exact absurd hap hc
        · rw [hq, List.getLast?_cons_cons, ← hq] at h
          exact ih app _ (a + 1) sr h hap

/-- If the loop exits with its last recorded attempt unapproved but
carrying the replan signal, the replan flag of the result is set. -/
theorem stepAttemptLoop_lastRejected (ag : Agents) (t : Task) (step : Dict) :
    ∀ rem app fb a sr,
      (stepAttemptLoop ag t step app fb a rem).2.1.getLast? = Option.some sr →
      (dictGet sr.review "approved").truthy = false →
      (dictGet sr.review "requires_replan").truthy = true →
      (stepAttemptLoop ag t step app fb a rem).2.2.2 = true := by
  intro rem
  induction rem with
  | zero => intro app fb a sr h; simp [stepAttemptLoop] at h
  | succ rem ih =>
    intro app fb a sr h hap hrp
    simp only [stepAttemptLoop] at h ⊢
    by_cases hc : (dictGet (ag.review_step t step (ag.execute_step t step app fb) a)
        "approved").truthy = true
    · rw [if_pos hc] at h ⊢
      dsimp only at h ⊢
      cases h
      simp only [List.getLast_singleton] at hap
      rw [hap] at hc
      exact hc
    · rw [if_neg hc] at h ⊢
      by_cases hc2 : (dictGet (ag.review_step t step (ag.execute_step t step app fb) a)
          "requires_replan").truthy = true
      · rw [if_pos hc2]
      · rw [if_neg hc2] at h ⊢
        dsimp only at h ⊢
        rcases hq : (stepAttemptLoop ag t step app
            (dictGet (ag.review_step t step (ag.execute_step t step app fb) a)
              "feedback") (a + 1) rem).2.1 with _ | ⟨x, xs⟩
        · cases h
          simp only [hq, List.getLast_singleton] at hrp
          exact absurd hrp hc2
        · rw [hq, List.getLast?_cons_cons, ← hq] at h
          exact ih app _ (a + 1) sr h hap hrp

/-- If every recorded attempt of the loop is neither approved nor
replanning, the loop exhausts all its iterations: as many attempts are
recorded as iterations were allowed, the replan flag is clear and the
approved results are unchanged. -/
theorem stepAttemptLoop_exhaust (ag : Agents) (t : Task) (step : Dict) :
    ∀ rem app fb a,
      (∀ sr ∈ (stepAttemptLoop ag t step app fb a rem).2.1,
        (dictGet sr.review "approved").truthy = false ∧
        (dictGet sr.review "requires_replan").truthy = false) →
      (stepAttemptLoop ag t step app fb a rem).2.1.length = rem ∧
        (stepAttemptLoop ag t step app fb a rem).2.2.2 = false ∧
        (stepAttemptLoop ag t step app fb a rem).2.2.1 = app := by
  intro rem
  induction rem with
  | zero => intro app fb a _; simp [stepAttemptLoop]
  | succ rem ih =>
    intro app fb a hall
    simp only [stepAttemptLoop] at hall ⊢
    by_cases hc : (dictGet (ag.review_step t step (ag.execute_step t step app fb) a)
        "approved").truthy = true
    · rw [if_pos hc] at hall
      dsimp only at hall
      have := (hall _ (List.mem_singleton_self _)).1
      dsimp only at this
      rw [hc] at this
      cases this
    · rw [if_neg hc] at hall ⊢
      by_cases hc2 : (dictGet (ag.review_step t step (ag.execute_step t step app fb) a)
          "requires_replan").truthy = true
      · rw [if_pos hc2] at hall
        dsimp only at hall
        have := (hall _ (List.mem_singleton_self _)).2
        dsimp only at this
        rw [hc2] at this
        cases this
      · rw [if_neg hc2] at hall ⊢
        dsimp only at hall ⊢
        have hih := ih app _ (a + 1)
          (fun sr hsr => hall sr (List.mem_cons_of_mem _ hsr))
        refine ⟨?_, hih.2.1, hih.2.2⟩
        rw [List.length_cons, hih.1]
/-- The approved results after the attempt loop extend the ones the loop
started with. -/
theorem stepAttemptLoop_approvedExtends (ag : Agents) (t : Task) (step : Dict) :
    ∀ rem app fb a,
      ∃ suf, (stepAttemptLoop ag t step app fb a rem).2.2.1 = app ++ suf := by
  intro rem
  induction rem with
  | zero => intro app fb a; exact ⟨[], by simp [stepAttemptLoop]⟩
  | succ rem ih =>
    intro app fb a
    simp only [stepAttemptLoop]
    split
    · exact ⟨_, rfl⟩
    · split
      · exact ⟨[], by simp⟩
      · exact ih app _ (a + 1)

/-! ### Structural lemmas about the step loop of `_execute_plan` -/

/-- Every `execute_step` call issued while processing a list of steps
passes a prior-results context that extends the approved results the loop
was entered with: approved results only accumulate. -/
theorem stepsLoop_priors (ag : Agents) (cfg : Config) (t : Task) :
    ∀ steps idx all app st pr fb2,
      Event.executeStep st pr fb2 ∈ (stepsLoop ag cfg t steps idx all app).1 →
      ∃ suf, pr = app ++ suf := by
  intro steps
  induction steps with
  | nil => intro idx all app st pr fb2 he; simp [stepsLoop] at he
  | cons raw rest ih =>
    intro idx all app st pr fb2 he
    cases raw with
    | dict d =>
      simp only [stepsLoop, pyDictOf] at he
      split at he
      · dsimp only at he
        have hpr := stepAttemptLoop_priors ag t _ _ _ _ _ _ _ _ he
        exact ⟨[], by rw [hpr, List.append_nil]⟩
      · split at he
        · dsimp only at he
          have hpr := stepAttemptLoop_priors ag t _ _ _ _ _ _ _ _ he
          exact ⟨[], by rw [hpr, List.append_nil]⟩
        · dsimp only at he
          rw [List.mem_append] at he
          rcases he with he | he
          · have hpr := stepAttemptLoop_priors ag t _ _ _ _ _ _ _ _ he
            exact ⟨[], by rw [hpr, List.append_nil]⟩
          · obtain ⟨suf0, hsuf0⟩ := stepAttemptLoop_approvedExtends ag t
              (dictSetdefault d "id" (.str ("step-" ++ toString idx)))
              cfg.max_step_iterations app .none 1
            rw [hsuf0] at he
            obtain ⟨suf1, hsuf1⟩ := ih _ _ _ st pr fb2 he
            exact ⟨suf0 ++ suf1, by rw [hsuf1, List.append_assoc]⟩
    | none => simp [stepsLoop, pyDictOf] at he
    | bool b => simp [stepsLoop, pyDictOf] at he
    | int n => simp [stepsLoop, pyDictOf] at he
    | str s => simp [stepsLoop, pyDictOf] at he
    | list xs => simp [stepsLoop, pyDictOf] at he

/-- The step loop never raises the malformed-steps error: that error
belongs to the steps-array validation of `_execute_plan` alone. -/
theorem stepsLoop_ne_malformed (ag : Agents) (cfg : Config) (t : Task) :
    ∀ steps idx all app,
      (stepsLoop ag cfg t steps idx all app).2 ≠
        Except.error WfError.malformedSteps := by
  intro steps
  induction steps with
  | nil => intro idx all app h; simp [stepsLoop] at h
  | cons raw rest ih =>
    intro idx all app h
    cases raw with
    | dict d =>
      simp only [stepsLoop, pyDictOf] at h
      split at h
      · simp at h
      · split at h
        · simp at h
        · exact ih _ _ _ h
    | none => simp [stepsLoop, pyDictOf] at h
    | bool b => simp [stepsLoop, pyDictOf] at h
    | int n => simp [stepsLoop, pyDictOf] at h
    | str s => simp [stepsLoop, pyDictOf] at h
    | list xs => simp [stepsLoop, pyDictOf] at h

/-- The step loop emits no planning events. -/
theorem stepsLoop_no_plan_events (ag : Agents) (cfg : Config) (t : Task) :
    ∀ steps idx all app, ∀ e ∈ (stepsLoop ag cfg t steps idx all app).1,
      e.isProposePlan = false ∧ e.isReviewPlan = false := by
  intro steps
  induction steps with
  | nil => intro idx all app e he; simp [stepsLoop] at he
  | cons raw rest ih =>
    intro idx all app e he
    cases raw with
    | dict d =>
      have hstep : ∀ rem app2 fb a,
          e ∈ (stepAttemptLoop ag t
            (dictSetdefault d "id" (.str ("step-" ++ toString idx))) app2 fb a rem).1 →
          e.isProposePlan = false ∧ e.isReviewPlan = false := by
        intro rem app2 fb a hmem
        rcases stepAttemptLoop_events ag t _ rem app2 fb a e hmem with
          ⟨pr, fb3, rfl⟩ | ⟨out, a2, rfl⟩
        · exact ⟨rfl, rfl⟩
        · exact ⟨rfl, rfl⟩
      simp only [stepsLoop, pyDictOf] at he
      split at he
      · exact hstep _ _ _ _ he
      · split at he
        · exact hstep _ _ _ _ he
        · dsimp only at he
          rw [List.mem_append] at he
          rcases he with he | he
          · exact hstep _ _ _ _ he
          · exact ih _ _ _ e he
    | none => simp [stepsLoop, pyDictOf] at he
    | bool b => simp [stepsLoop, pyDictOf] at he
    | int n => simp [stepsLoop, pyDictOf] at he
    | str s => simp [stepsLoop, pyDictOf] at he
    | list xs => simp [stepsLoop, pyDictOf] at he

/-- When the step loop completes, the accumulated attempt history equals
the history it started with extended by one entry per review-step event
it emitted: every execution attempt of every processed step is recorded,
in order, approved or not. -/
theorem stepsLoop_attemptData (ag : Agents) (cfg : Config) (t : Task) :
    ∀ steps idx all app all2,
      (stepsLoop ag cfg t steps idx all app).2 =
        Except.ok (PlanExec.completed all2) →
      all2.map StepResult.attemptData =
        all.map StepResult.attemptData ++
          (stepsLoop ag cfg t steps idx all app).1.filterMap Event.attemptData := by
  intro steps
  induction steps with
  | nil =>
    intro idx all app all2 h
    simp only [stepsLoop] at h ⊢
    cases h
    simp
  | cons raw rest ih =>
    intro idx all app all2 h
    cases raw with
    | dict d =>
      simp only [stepsLoop, pyDictOf] at h ⊢
      split at h
      · simp at h
      · split at h
        · simp at h
        · rename_i hrr hla
          rw [if_neg hrr, if_neg hla]
          dsimp only at h ⊢
          have hih := ih _ _ _ _ h
          rw [hih, List.filterMap_append, List.map_append,
            stepAttemptLoop_attemptData, List.append_assoc]
    | none => simp [stepsLoop, pyDictOf] at h
    | bool b => simp [stepsLoop, pyDictOf] at h
    | int n => simp [stepsLoop, pyDictOf] at h
    | str s => simp [stepsLoop, pyDictOf] at h
    | list xs => simp [stepsLoop, pyDictOf] at h

/-! ### Structural lemmas about `_execute_plan` and the plan loop -/

/-- When `_execute_plan` returns a result, the step results of that result
correspond one to one, in order, to the review-step events of its trace:
one `StepResult` per execution attempt performed under this plan. -/
theorem executePlan_attemptData (ag : Agents) (cfg : Config) (t : Task)
    (plan : Dict) (evs : List Event) (r : TaskRunResult) (xfb : PyVal)
    (h : executePlan ag cfg t plan = (evs, Except.ok (Option.some r, xfb))) :
    r.step_results.map StepResult.attemptData = evs.filterMap Event.attemptData := by
  simp only [executePlan] at h
  split at h
  · rename_i stepList hsteps
    split at h
    · simp at h
    · simp at h
    · rename_i evs0 all2 hloop
      rw [Prod.mk.injEq] at h
      obtain ⟨hevs, hres⟩ := h
      simp only [Except.ok.injEq, Prod.mk.injEq, Option.some.injEq] at hres
      obtain ⟨hr, -⟩ := hres
      subst hr
      subst hevs
      dsimp only
      have := stepsLoop_attemptData ag cfg t stepList 1 [] [] all2 (by rw [hloop])
      simp only [List.map_nil, List.nil_append] at this
      rw [this, List.filterMap_append, List.filterMap_append]
      cases ag.coordinator <;> simp [Event.attemptData, hloop]
  · simp at h

/-- The function `_execute_plan` emits no planning events. -/
theorem executePlan_no_plan_events (ag : Agents) (cfg : Config) (t : Task)
    (plan : Dict) :
    ∀ e ∈ (executePlan ag cfg t plan).1,
      e.isProposePlan = false ∧ e.isReviewPlan = false := by
  intro e he
  simp only [executePlan] at he
  split at he
  · rename_i stepList hsteps
    split at he
    · rename_i evs0 err heq
      dsimp only at he
      refine stepsLoop_no_plan_events ag cfg t stepList 1 [] [] e ?_
      rw [heq]
      exact he
    · rename_i evs0 fb0 heq
      dsimp only at he
      refine stepsLoop_no_plan_events ag cfg t stepList 1 [] [] e ?_
      rw [heq]
      exact he
    · rename_i evs0 all2 hloop
      dsimp only at he
      rw [List.append_assoc, List.mem_append] at he
      rcases he with he | he
      · refine stepsLoop_no_plan_events ag cfg t stepList 1 [] [] e ?_
        rw [hloop]
        exact he
      · rw [List.mem_append] at he
        rcases he with he | he
        · rw [List.mem_singleton] at he
          subst he
          exact ⟨rfl, rfl⟩
        · cases hc : ag.coordinator <;> rw [hc] at he
          · simp at he
          · rw [List.mem_singleton] at he
            subst he
            exact ⟨rfl, rfl⟩
  · simp at he

/-- A successful plan loop result originates in a successful
`_execute_plan` call: the returned `TaskRunResult` is exactly the result
of the last plan execution. -/
theorem planLoop_ok_origin (ag : Agents) (cfg : Config) (t : Task) :
    ∀ fuel fb prev p r,
      (planLoop ag cfg t fb prev p fuel).2 = Except.ok r →
      ∃ plan evs2 xfb,
        executePlan ag cfg t plan = (evs2, Except.ok (Option.some r, xfb)) := by
  intro fuel
  induction fuel with
  | zero => intro fb prev p r h; simp [planLoop] at h
  | succ fuel ih =>
    intro fb prev p r h
    simp only [planLoop] at h
    split at h
    · exact ih _ _ _ r h
    · split at h
      · simp at h
      · rename_i evs2 rr x hE
        dsimp only at h
        cases h
        exact ⟨_, _, _, hE⟩
      · rename_i evs2 efb hE
        split at h
        · simp at h
        · exact ih _ _ _ r h

/-- The round-`j` plan proposal is the `propose_plan` call on the
round-`j` feedback and previous plan. -/
theorem proposedPlan_eq (ag : Agents) (t : Task) (s : Nat) :
    proposedPlan ag t s = ag.propose_plan t (fbAt ag t s) (prevAt ag t s) := by
  cases s <;> rfl

/-- A planning segment of `n` rounds contains exactly `n` plan
proposals. -/
theorem planSeg_countPropose (ag : Agents) (t : Task) :
    ∀ n s, (planSeg ag t s n).countP Event.isProposePlan = n := by
  intro n
  induction n with
  | zero => intro s; simp [planSeg]
  | succ n ih =>
    intro s
    simp only [planSeg, List.countP_cons]
    rw [ih]
    simp [Event.isProposePlan]

/-- A planning segment of `n` rounds contains exactly `n` plan reviews. -/
theorem planSeg_countReview (ag : Agents) (t : Task) :
    ∀ n s, (planSeg ag t s n).countP Event.isReviewPlan = n := by
  intro n
  induction n with
  | zero => intro s; simp [planSeg]
  | succ n ih =>
    intro s
    simp only [planSeg, List.countP_cons]
    rw [ih]
    simp [Event.isReviewPlan]

/-- If the plan reviews of rounds `s` to `s + n - 1` reject and the round
`s + n` review approves, the plan loop entered at round `s` emits exactly
the planning segment of those `n + 1` rounds followed by the trace of the
execution of the approved plan (and whatever follows it). -/
theorem planLoop_rejectPrefix (ag : Agents) (cfg : Config) (t : Task) :
    ∀ n s fuel, n + 1 ≤ fuel →
      (∀ j, s ≤ j → j < s + n →
        (dictGet (planReviewAt ag t j) "approved").truthy = false) →
      (dictGet (planReviewAt ag t (s + n)) "approved").truthy = true →
      ∃ rest, (planLoop ag cfg t (fbAt ag t s) (prevAt ag t s) s fuel).1 =
        planSeg ag t s (n + 1) ++
          (executePlan ag cfg t (proposedPlan ag t (s + n))).1 ++ rest := by
  intro n
  induction n with
  | zero =>
    intro s fuel hfuel hrej happ
    simp only [Nat.add_zero] at happ
    cases fuel with
    | zero => omega
    | succ f =>
      simp only [Nat.add_zero, planLoop, ← proposedPlan_eq]
      rw [show (dictGet (ag.review_plan t (proposedPlan ag t s) (s + 1))
          "approved").truthy = true from happ]
      rw [Bool.not_true, if_neg Bool.false_ne_true]
      rcases hE : executePlan ag cfg t (proposedPlan ag t s) with ⟨evs2, res⟩
      rcases res with e | ⟨ropt, xfb⟩
      · exact ⟨[], by simp [planSeg]⟩
      · rcases ropt with _ | r
        · dsimp only
          split
          · exact ⟨[], by simp [planSeg]⟩
          · refine ⟨(planLoop ag cfg t
              (if xfb.truthy = true then xfb
                else PyVal.str "Reviewer requested a re-plan during execution.")
              (Option.some (proposedPlan ag t s)) (s + 1) f).1, ?_⟩
            simp [planSeg]
        · exact ⟨[], by simp [planSeg]⟩
  | succ n ih =>
    intro s fuel hfuel hrej happ
    cases fuel with
    | zero => omega
    | succ f =>
      simp only [planLoop, ← proposedPlan_eq]
      rw [show (dictGet (ag.review_plan t (proposedPlan ag t s) (s + 1))
            "approved").truthy = false from
          hrej s (Nat.le_refl s) (by omega)]
      rw [Bool.not_false, if_pos rfl]
      obtain ⟨rest, hrest⟩ := ih (s + 1) f (by omega)
        (fun j hj1 hj2 => hrej j (by omega) (by omega))
        (by rw [show s + 1 + n = s + (n + 1) from by omega]; exact happ)
      rw [show fbAt ag t (s + 1)
            = dictGet (ag.review_plan t (proposedPlan ag t s) (s + 1)) "feedback"
          from rfl,
        show prevAt ag t (s + 1) = Option.some (proposedPlan ag t s) from rfl,
        show s + 1 + n = s + (n + 1) from by omega] at hrest
      refine ⟨rest, ?_⟩
      dsimp only
      rw [hrest]
      simp [planSeg, List.append_assoc]

/-- A successful `dict()` conversion means the raw step was a mapping. -/
theorem pyDictOf_ok (raw : PyVal) (d : Dict) (h : pyDictOf raw = Except.ok d) :
    raw = PyVal.dict d := by
  cases raw <;> simp [pyDictOf] at h <;> simp [h]

/-- With a falsy steps value (`plan.get("steps") or []` yields `[]`),
`_execute_plan` runs zero steps and goes straight to the final review. -/
theorem executePlan_noSteps (ag : Agents) (cfg : Config) (t : Task) (plan : Dict)
    (h : (dictGet plan "steps").truthy = false) :
    ∃ r, executePlan ag cfg t plan =
      (Event.finalReview plan [] ::
        (match ag.coordinator with
         | Option.some _ => [Event.synthesise plan [] (ag.final_review t plan [])]
         | Option.none => []),
       Except.ok (Option.some r, PyVal.none)) ∧
      r.step_results = [] ∧ r.reviewer_summary = ag.final_review t plan [] := by
  rcases hc : ag.coordinator with _ | synth
  · exact ⟨⟨t, plan, [], ag.final_review t plan [], Option.none⟩,
      by simp [executePlan, h, stepsLoop, hc], rfl, rfl⟩
  · exact ⟨⟨t, plan, [], ag.final_review t plan [],
        Option.some (synth t plan [] (ag.final_review t plan []))⟩,
      by simp [executePlan, h, stepsLoop, hc], rfl, rfl⟩

/-- With a truthy, non-list steps value, `_execute_plan` raises the
malformed-steps error before any collaborator call. -/
theorem executePlan_malformed (ag : Agents) (cfg : Config) (t : Task) (plan : Dict)
    (h1 : (dictGet plan "steps").truthy = true)
    (h2 : (dictGet plan "steps").isList = false) :
    executePlan ag cfg t plan = ([], Except.error WfError.malformedSteps) := by
  have hsel : (if (dictGet plan "steps").truthy = true then dictGet plan "steps"
      else PyVal.list []) = dictGet plan "steps" := if_pos h1
  simp only [executePlan, hsel]
  rcases hv : dictGet plan "steps" with _ | b | n | s | xs | d
  · rfl
  · rfl
  · rfl
  · rfl
  · rw [hv] at h2; simp [PyVal.isList] at h2
  · rfl

/-- With a truthy list steps value, `_execute_plan` never reports the
malformed-steps error. -/
theorem executePlan_list_ne_malformed (ag : Agents) (cfg : Config) (t : Task)
    (plan : Dict) (xs : List PyVal) (hv : dictGet plan "steps" = PyVal.list xs) :
    (executePlan ag cfg t plan).2 ≠ Except.error WfError.malformedSteps := by
  intro h
  simp only [executePlan, hv] at h
  by_cases ht : (PyVal.list xs).truthy = true
  · rw [if_pos ht] at h
    dsimp only at h
    rcases hq : stepsLoop ag cfg t xs 1 [] [] with ⟨evs0, res⟩
    rw [hq] at h
    rcases res with e | pe
    · cases h
      exact stepsLoop_ne_malformed ag cfg t xs 1 [] [] (by rw [hq])
    · rcases pe with fb0 | all0 <;> simp at h
  · rw [if_neg ht] at h
    dsimp only at h
    rcases hq : stepsLoop ag cfg t ([] : List PyVal) 1 [] [] with ⟨evs0, res⟩
    rw [hq] at h
    rcases res with e | pe
    · cases h
      exact stepsLoop_ne_malformed ag cfg t [] 1 [] [] (by rw [hq])
    · rcases pe with fb0 | all0 <;> simp at h

/-- The plan loop with at least one round of fuel starts by proposing a
plan: its first emitted event is the `propose_plan` call on the carried
feedback and previous plan. -/
theorem planLoop_head (ag : Agents) (cfg : Config) (t : Task)
    (fb : PyVal) (prev : Option Dict) (p fuel : Nat) :
    (planLoop ag cfg t fb prev p (fuel + 1)).1.head? =
      Option.some (Event.proposePlan fb prev) := by
  simp only [planLoop]
  split
  · rfl
  · split
    · rfl
    · rfl
    · split
      · rfl
      · rfl

/-- The last entry of a cons list with a nonempty tail is the last entry
of the tail. -/
theorem getLast?_cons_ne_nil {α : Type _} {l : List α} (a : α) (h : l ≠ []) :
    (a :: l).getLast? = l.getLast? := by
  cases l with
  | nil => exact absurd rfl h
  | cons x xs => exact List.getLast?_cons_cons

/-- A recorded attempt whose review approves is the last recorded attempt
of its step: the loop breaks right after it. -/
theorem stepAttemptLoop_memApproved (ag : Agents) (t : Task) (step : Dict) :
    ∀ rem app fb a sr, sr ∈ (stepAttemptLoop ag t step app fb a rem).2.1 →
      (dictGet sr.review "approved").truthy = true →
      (stepAttemptLoop ag t step app fb a rem).2.1.getLast? = Option.some sr := by
  intro rem
  induction rem with
  | zero => intro app fb a sr h; simp [stepAttemptLoop] at h
  | succ rem ih =>
    intro app fb a sr h hap
    simp only [stepAttemptLoop] at h ⊢
    by_cases hc : (dictGet (ag.review_step t step (ag.execute_step t step app fb) a)
        "approved").truthy = true
    · rw [if_pos hc] at h ⊢
      dsimp only at h ⊢
      rcases h with _ | ⟨-, h⟩
      · rfl
      · cases h
    · rw [if_neg hc] at h ⊢
      by_cases hc2 : (dictGet (ag.review_step t step (ag.execute_step t step app fb) a)
          "requires_replan").truthy = true
      · rw [if_pos hc2] at h ⊢
        dsimp only at h ⊢
        rcases h with _ | ⟨-, h⟩
        · exact absurd hap hc
        · cases h
      · rw [if_neg hc2] at h ⊢
        dsimp only at h ⊢
        rcases h with _ | ⟨-, h⟩
        · exact absurd hap hc
        · have htail := ih app _ (a + 1) sr h hap
          have hne : (stepAttemptLoop ag t step app
              (dictGet (ag.review_step t step (ag.execute_step t step app fb) a)
                "feedback") (a + 1) rem).2.1 ≠ [] := by
            intro hnil
            rw [hnil] at h
            cases h
          rw [getLast?_cons_ne_nil _ hne]
          exact htail

/-- A recorded attempt whose review rejects with a replan signal is the
last recorded attempt of its step: the loop breaks right after it. -/
theorem stepAttemptLoop_memRejected (ag : Agents) (t : Task) (step : Dict) :
    ∀ rem app fb a sr, sr ∈ (stepAttemptLoop ag t step app fb a rem).2.1 →
      (dictGet sr.review "approved").truthy = false →
      (dictGet sr.review "requires_replan").truthy = true →
      (stepAttemptLoop ag t step app fb a rem).2.1.getLast? = Option.some sr := by
  intro rem
  induction rem with
  | zero => intro app fb a sr h; simp [stepAttemptLoop] at h
  | succ rem ih =>
    intro app fb a sr h hap hrp
    simp only [stepAttemptLoop] at h ⊢
    by_cases hc : (dictGet (ag.review_step t step (ag.execute_step t step app fb) a)
        "approved").truthy = true
    · rw [if_pos hc] at h ⊢
      dsimp only at h ⊢
      rcases h with _ | ⟨-, h⟩
      · rw [hap] at hc
        cases hc
      · cases h
    · rw [if_neg hc] at h ⊢
      by_cases hc2 : (dictGet (ag.review_step t step (ag.execute_step t step app fb) a)
          "requires_replan").truthy = true
      · rw [if_pos hc2] at h ⊢
        dsimp only at h ⊢
        rcases h with _ | ⟨-, h⟩
        · rfl
        · cases h
      · rw [if_neg hc2] at h ⊢
        dsimp only at h ⊢
        rcases h with _ | ⟨-, h⟩
        · rw [hrp] at hc2
          exact absurd rfl hc2
        · have htail := ih app _ (a + 1) sr h hap hrp
          have hne : (stepAttemptLoop ag t step app
              (dictGet (ag.review_step t step (ag.execute_step t step app fb) a)
                "feedback") (a + 1) rem).2.1 ≠ [] := by
            intro hnil
            rw [hnil] at h
            cases h
          rw [getLast?_cons_ne_nil _ hne]
          exact htail

/-- If the attempt loop of a step ends with its last recorded attempt
approved, the step loop records it, forwards it, and advances to the next
step. -/
theorem stepsLoop_advanceApproved (ag : Agents) (cfg : Config) (t : Task)
    (d : Dict) (rest : List PyVal) (idx : Nat)
    (all app : List StepResult) (evs : List Event)
    (attempts app2 : List StepResult) (rr : Bool) (sr : StepResult)
    (hsl : stepAttemptLoop ag t
        (dictSetdefault d "id" (.str ("step-" ++ toString idx)))
        app PyVal.none 1 cfg.max_step_iterations = (evs, attempts, app2, rr))
    (hlast : attempts.getLast? = Option.some sr)
    (hap : (dictGet sr.review "approved").truthy = true) :
    rr = false ∧ app2 = app ++ [sr] ∧
      stepsLoop ag cfg t (PyVal.dict d :: rest) idx all app =
        (evs ++ (stepsLoop ag cfg t rest (idx + 1) (all ++ attempts) app2).1,
         (stepsLoop ag cfg t rest (idx + 1) (all ++ attempts) app2).2) := by
  have hA := stepAttemptLoop_lastApproved ag t
    (dictSetdefault d "id" (.str ("step-" ++ toString idx)))
    cfg.max_step_iterations app PyVal.none 1 sr (by rw [hsl]; exact hlast) hap
  rw [hsl] at hA
  dsimp only at hA
  obtain ⟨hrr, happ2⟩ := hA
  refine ⟨hrr, happ2, ?_⟩
  simp only [stepsLoop, pyDictOf, hsl]
  rw [hrr, if_neg Bool.false_ne_true]
  rw [hlast]
  dsimp only
  rw [hap, Bool.not_true, if_neg Bool.false_ne_true]

/-! ### The claims -/

/-- C10: `TaskRunResult.to_markdown` is a pure deterministic function of
the record: applied to equal values it produces byte-identical output. -/
theorem claim_C10_to_markdown_deterministic (r1 r2 : TaskRunResult)
    (h : r1 = r2) : r1.to_markdown = r2.to_markdown := by
  rw [h]

/-- Witness for C10 at a concrete record. -/
theorem claim_C10_witness : resSample.to_markdown = resSample.to_markdown :=
  claim_C10_to_markdown_deterministic resSample resSample rfl

/-- C8: an approved plan with an empty steps sequence executes zero steps,
still calls the final review with an empty history, and completes with a
`TaskRunResult` whose step results are empty — a valid completion, not an
error. -/
theorem claim_C8_empty_plan (ag : Agents) (cfg : Config) (t : Task) (plan : Dict)
    (h : dictGet plan "steps" = PyVal.list []) :
    ∃ r, (executePlan ag cfg t plan).2 = Except.ok (Option.some r, PyVal.none) ∧
      r.step_results = [] ∧
      r.reviewer_summary = ag.final_review t plan [] ∧
      Event.finalReview plan [] ∈ (executePlan ag cfg t plan).1 ∧
      ∀ e ∈ (executePlan ag cfg t plan).1, e.isExecuteStep = false := by
  obtain ⟨r, hE, hsr, hrs⟩ := executePlan_noSteps ag cfg t plan (by rw [h]; rfl)
  refine ⟨r, by rw [hE], hsr, hrs, by rw [hE]; exact List.mem_cons_self _ _, ?_⟩
  intro e he
  rw [hE] at he
  rcases he with _ | ⟨-, he⟩
  · rfl
  · rcases hc : ag.coordinator with _ | synth <;> rw [hc] at he
    · cases he
    · cases he with
      | head => rfl
      | tail y he2 => cases he2

/-- Witness for C8: the zero-step plan fixture completes with an empty
step-result history. -/
theorem claim_C8_witness :
    ∃ r, (executePlan agEmptyPlan cfgDef t0 planEmpty).2 =
        Except.ok (Option.some r, PyVal.none) ∧
      r.step_results = [] ∧
      r.reviewer_summary = agEmptyPlan.final_review t0 planEmpty [] ∧
      Event.finalReview planEmpty [] ∈ (executePlan agEmptyPlan cfgDef t0 planEmpty).1 ∧
      ∀ e ∈ (executePlan agEmptyPlan cfgDef t0 planEmpty).1, e.isExecuteStep = false :=
  claim_C8_empty_plan agEmptyPlan cfgDef t0 planEmpty rfl

/-- C9: `_execute_plan` raises the malformed-steps error exactly when the
steps value of the plan is present, truthy and not a list; a falsy steps
value (absent, `None`, or an empty list) is silently treated as a
zero-step plan that proceeds to the final review. -/
theorem claim_C9_malformed_iff (ag : Agents) (cfg : Config) (t : Task)
    (plan : Dict) :
    (((executePlan ag cfg t plan).2 = Except.error WfError.malformedSteps) ↔
      ((dictGet plan "steps").truthy = true ∧
        (dictGet plan "steps").isList = false)) ∧
    ((dictGet plan "steps").truthy = false →
      ∃ r, (executePlan ag cfg t plan).2 = Except.ok (Option.some r, PyVal.none) ∧
        r.step_results = []) := by
  constructor
  · constructor
    · intro h
      by_cases h1 : (dictGet plan "steps").truthy = true
      · by_cases h2 : (dictGet plan "steps").isList = true
        · exfalso
          rcases hv : dictGet plan "steps" with _ | b | n | s | xs | d <;>
            rw [hv] at h2 <;> try simp [PyVal.isList] at h2
          exact executePlan_list_ne_malformed ag cfg t plan xs hv h
        · exact ⟨h1, by simpa using h2⟩
      · obtain ⟨r, hE, -, -⟩ := executePlan_noSteps ag cfg t plan
          (by simpa using h1)
        rw [hE] at h
        simp at h
    · rintro ⟨h1, h2⟩
      rw [executePlan_malformed ag cfg t plan h1 h2]
  · intro h
    obtain ⟨r, hE, hsr, -⟩ := executePlan_noSteps ag cfg t plan h
    exact ⟨r, by rw [hE], hsr⟩

/-- Witness for C9: a truthy non-list steps value is rejected as
malformed, and an empty steps array completes with no step results. -/
theorem claim_C9_witness :
    (executePlan agHappy cfgDef t0 [("steps", PyVal.int 1)]).2 =
        Except.error WfError.malformedSteps ∧
      ∃ r, (executePlan agHappy cfgDef t0 planEmpty).2 =
          Except.ok (Option.some r, PyVal.none) ∧ r.step_results = [] :=
  ⟨(claim_C9_malformed_iff agHappy cfgDef t0 [("steps", PyVal.int 1)]).1.mpr
      ⟨rfl, rfl⟩,
    (claim_C9_malformed_iff agHappy cfgDef t0 planEmpty).2 rfl⟩

/-- C7: a step review returning both `approved = true` and
`requires_replan = true` is treated as approved: the attempt loop exits
with no replan flag, the recorded `StepResult` (whose review is that
approving review) is appended to the approved results, and the step loop
advances to the next step instead of signalling a replan. -/
theorem claim_C7_approval_precedence (ag : Agents) (cfg : Config) (t : Task)
    (raw : PyVal) (d : Dict) (rest : List PyVal) (idx : Nat)
    (all app : List StepResult) (evs : List Event)
    (attempts app2 : List StepResult) (rr : Bool) (sr : StepResult)
    (hraw : pyDictOf raw = Except.ok d)
    (hsl : stepAttemptLoop ag t
        (dictSetdefault d "id" (.str ("step-" ++ toString idx)))
        app PyVal.none 1 cfg.max_step_iterations = (evs, attempts, app2, rr))
    (hmem : sr ∈ attempts)
    (hap : (dictGet sr.review "approved").truthy = true)
    (hrp : (dictGet sr.review "requires_replan").truthy = true) :
    attempts.getLast? = Option.some sr ∧ rr = false ∧ app2 = app ++ [sr] ∧
      stepsLoop ag cfg t (raw :: rest) idx all app =
        (evs ++ (stepsLoop ag cfg t rest (idx + 1) (all ++ attempts) app2).1,
         (stepsLoop ag cfg t rest (idx + 1) (all ++ attempts) app2).2) := by
  obtain rfl := pyDictOf_ok raw d hraw
  have hlast := stepAttemptLoop_memApproved ag t
    (dictSetdefault d "id" (.str ("step-" ++ toString idx)))
    cfg.max_step_iterations app PyVal.none 1 sr (by rw [hsl]; exact hmem) hap
  rw [hsl] at hlast
  dsimp only at hlast
  exact ⟨hlast, stepsLoop_advanceApproved ag cfg t d rest idx all app evs
    attempts app2 rr sr hsl hlast hap⟩

/-- Witness for C7: a first-attempt review with both flags set makes the
fixture advance past the step with the result recorded as approved. -/
theorem claim_C7_witness :
    ([srBoth] : List StepResult).getLast? = Option.some srBoth ∧
      false = false ∧
      [srBoth] = [] ++ [srBoth] ∧
      stepsLoop agBothFlags cfgDef t0 [PyVal.dict stepS1] 1 [] [] =
        ([Event.executeStep stepS1 [] PyVal.none,
          Event.reviewStep stepS1 outDone 1] ++
            (stepsLoop agBothFlags cfgDef t0 [] 2 ([] ++ [srBoth]) [srBoth]).1,
         (stepsLoop agBothFlags cfgDef t0 [] 2 ([] ++ [srBoth]) [srBoth]).2) :=
  claim_C7_approval_precedence agBothFlags cfgDef t0 (PyVal.dict stepS1) stepS1
    [] 1 [] []
    [Event.executeStep stepS1 [] PyVal.none, Event.reviewStep stepS1 outDone 1]
    [srBoth] [srBoth] false srBoth
    rfl rfl (List.mem_cons_self srBoth []) rfl rfl

/-- C4: when the reviews of all `max_step_iterations` attempts of a step
come back unapproved and without a replan signal, the step loop raises the
bound-exceeded error carrying the id of that step and the bound, and no
event of any later step is emitted. -/
theorem claim_C4_step_bound (ag : Agents) (cfg : Config) (t : Task)
    (raw : PyVal) (d : Dict) (rest : List PyVal) (idx : Nat)
    (all app : List StepResult) (evs : List Event)
    (attempts app2 : List StepResult) (rr : Bool)
    (hraw : pyDictOf raw = Except.ok d)
    (hsl : stepAttemptLoop ag t
        (dictSetdefault d "id" (.str ("step-" ++ toString idx)))
        app PyVal.none 1 cfg.max_step_iterations = (evs, attempts, app2, rr))
    (hall : ∀ sr ∈ attempts,
      (dictGet sr.review "approved").truthy = false ∧
      (dictGet sr.review "requires_replan").truthy = false) :
    stepsLoop ag cfg t (raw :: rest) idx all app =
      (evs, Except.error (WfError.stepNotApproved
        (dictGet (dictSetdefault d "id" (.str ("step-" ++ toString idx))) "id")
        cfg.max_step_iterations)) ∧
    attempts.length = cfg.max_step_iterations ∧
    ∀ e ∈ evs, ∀ st pr fb2, e = Event.executeStep st pr fb2 →
      st = dictSetdefault d "id" (.str ("step-" ++ toString idx)) := by
  obtain rfl := pyDictOf_ok raw d hraw
  have hX := stepAttemptLoop_exhaust ag t
    (dictSetdefault d "id" (.str ("step-" ++ toString idx)))
    cfg.max_step_iterations app PyVal.none 1 (by rw [hsl]; exact hall)
  rw [hsl] at hX
  dsimp only at hX
  obtain ⟨hlen, hrr, -⟩ := hX
  have hla : (match attempts.getLast? with
      | Option.some sr => (dictGet sr.review "approved").truthy
      | Option.none => false) = false := by
    rcases hg : attempts.getLast? with _ | sr
    · rfl
    · exact (hall sr (List.mem_of_getLast?_eq_some hg)).1
  refine ⟨?_, hlen, ?_⟩
  · simp only [stepsLoop, pyDictOf, hsl]
    rw [hrr, if_neg Bool.false_ne_true, hla, Bool.not_false, if_pos rfl]
  · intro e he st pr fb2 hest
    subst hest
    rcases stepAttemptLoop_events ag t
        (dictSetdefault d "id" (.str ("step-" ++ toString idx)))
        cfg.max_step_iterations app PyVal.none 1 _ (by rw [hsl]; exact he) with
      ⟨pr2, fb3, heq⟩ | ⟨out2, a2, heq⟩
    · cases heq
      rfl
    · cases heq

/-- Witness for C4: with a reviewer that always rejects without replan,
the three-attempt fixture raises the bound error naming step `s1`. -/
theorem claim_C4_witness :
    stepsLoop agStubborn cfgDef t0 [PyVal.dict stepS1] 1 [] [] =
      ([Event.executeStep stepS1 [] PyVal.none,
        Event.reviewStep stepS1 outDone 1,
        Event.executeStep stepS1 [] (PyVal.str "retry"),
        Event.reviewStep stepS1 outDone 2,
        Event.executeStep stepS1 [] (PyVal.str "retry"),
        Event.reviewStep stepS1 outDone 3],
       Except.error (WfError.stepNotApproved (PyVal.str "s1") 3)) ∧
    [srRetry 1, srRetry 2, srRetry 3].length = cfgDef.max_step_iterations ∧
    ∀ e ∈ [Event.executeStep stepS1 [] PyVal.none,
        Event.reviewStep stepS1 outDone 1,
        Event.executeStep stepS1 [] (PyVal.str "retry"),
        Event.reviewStep stepS1 outDone 2,
        Event.executeStep stepS1 [] (PyVal.str "retry"),
        Event.reviewStep stepS1 outDone 3],
      ∀ st pr fb2, e = Event.executeStep st pr fb2 →
        st = dictSetdefault stepS1 "id" (.str ("step-" ++ toString 1)) :=
  claim_C4_step_bound agStubborn cfgDef t0 (PyVal.dict stepS1) stepS1 [] 1 [] []
    [Event.executeStep stepS1 [] PyVal.none,
      Event.reviewStep stepS1 outDone 1,
      Event.executeStep stepS1 [] (PyVal.str "retry"),
      Event.reviewStep stepS1 outDone 2,
      Event.executeStep stepS1 [] (PyVal.str "retry"),
      Event.reviewStep stepS1 outDone 3]
    [srRetry 1, srRetry 2, srRetry 3]
    [] false rfl rfl
    (by intro sr hsr
        rcases hsr with _ | ⟨-, hsr⟩
        · exact ⟨rfl, rfl⟩
        · rcases hsr with _ | ⟨-, hsr⟩
          · exact ⟨rfl, rfl⟩
          · rcases hsr with _ | ⟨-, hsr⟩
            · exact ⟨rfl, rfl⟩
            · cases hsr)

/-- C6: for a step approved on attempt `a`, exactly `a` execute-step and
`a` review-step calls occur for that step, exactly one `StepResult` — the
approved one — is appended to the approved results forwarded to later
steps, the step loop advances to the next step, and every later
execute-step call receives a prior-results context extending the approved
results including that one entry. -/
theorem claim_C6_approved_roundtrips (ag : Agents) (cfg : Config) (t : Task)
    (raw : PyVal) (d : Dict) (rest : List PyVal) (idx : Nat)
    (all app : List StepResult) (evs : List Event)
    (attempts app2 : List StepResult) (rr : Bool) (sr : StepResult)
    (hraw : pyDictOf raw = Except.ok d)
    (hsl : stepAttemptLoop ag t
        (dictSetdefault d "id" (.str ("step-" ++ toString idx)))
        app PyVal.none 1 cfg.max_step_iterations = (evs, attempts, app2, rr))
    (hmem : sr ∈ attempts)
    (hap : (dictGet sr.review "approved").truthy = true) :
    evs.countP Event.isExecuteStep = sr.attempt ∧
    evs.countP Event.isReviewStep = sr.attempt ∧
    app2 = app ++ [sr] ∧
    stepsLoop ag cfg t (raw :: rest) idx all app =
      (evs ++ (stepsLoop ag cfg t rest (idx + 1) (all ++ attempts) app2).1,
       (stepsLoop ag cfg t rest (idx + 1) (all ++ attempts) app2).2) ∧
    ∀ st pr fb2, Event.executeStep st pr fb2 ∈
        (stepsLoop ag cfg t rest (idx + 1) (all ++ attempts) app2).1 →
      ∃ suf, pr = (app ++ [sr]) ++ suf := by
  have hlast : attempts.getLast? = Option.some sr := by
    have := stepAttemptLoop_memApproved ag t
      (dictSetdefault d "id" (.str ("step-" ++ toString idx)))
      cfg.max_step_iterations app PyVal.none 1 sr (by rw [hsl]; exact hmem) hap
    rw [hsl] at this
    exact this
  have hattempt : sr.attempt + 1 = 1 + attempts.length := by
    have := stepAttemptLoop_lastAttempt ag t
      (dictSetdefault d "id" (.str ("step-" ++ toString idx)))
      cfg.max_step_iterations app PyVal.none 1 sr (by rw [hsl]; exact hlast)
    rw [hsl] at this
    dsimp only at this
    exact this
  have hcountE := stepAttemptLoop_execCount ag t
    (dictSetdefault d "id" (.str ("step-" ++ toString idx)))
    cfg.max_step_iterations app PyVal.none 1
  have hcountR := stepAttemptLoop_reviewCount ag t
    (dictSetdefault d "id" (.str ("step-" ++ toString idx)))
    cfg.max_step_iterations app PyVal.none 1
  rw [hsl] at hcountE hcountR
  dsimp only at hcountE hcountR
  obtain rfl := pyDictOf_ok raw d hraw
  obtain ⟨hrr, happ2, hadv⟩ := stepsLoop_advanceApproved ag cfg t d rest idx all
    app evs attempts app2 rr sr hsl hlast hap
  refine ⟨by rw [hcountE]; omega, by rw [hcountR]; omega, happ2, hadv, ?_⟩
  intro st pr fb2 hmem
  rw [← happ2]
  exact stepsLoop_priors ag cfg t rest (idx + 1) (all ++ attempts) app2 st pr
    fb2 hmem

/-- Witness for C6: the second-try fixture approves `s1` on attempt 2
after exactly two execute/review round trips. -/
theorem claim_C6_witness :
    ([Event.executeStep stepS1 [] PyVal.none,
      Event.reviewStep stepS1 outDone 1,
      Event.executeStep stepS1 [] (PyVal.str "again"),
      Event.reviewStep stepS1 outDone 2] : List Event).countP
        Event.isExecuteStep = srAgain2.attempt ∧
    ([Event.executeStep stepS1 [] PyVal.none,
      Event.reviewStep stepS1 outDone 1,
      Event.executeStep stepS1 [] (PyVal.str "again"),
      Event.reviewStep stepS1 outDone 2] : List Event).countP
        Event.isReviewStep = srAgain2.attempt ∧
    [srAgain2] = [] ++ [srAgain2] ∧
    stepsLoop agSecondTry cfgDef t0 [PyVal.dict stepS1] 1 [] [] =
      ([Event.executeStep stepS1 [] PyVal.none,
        Event.reviewStep stepS1 outDone 1,
        Event.executeStep stepS1 [] (PyVal.str "again"),
        Event.reviewStep stepS1 outDone 2] ++
          (stepsLoop agSecondTry cfgDef t0 [] 2
            ([] ++ [srAgain1, srAgain2]) [srAgain2]).1,
       (stepsLoop agSecondTry cfgDef t0 [] 2
          ([] ++ [srAgain1, srAgain2]) [srAgain2]).2) ∧
    ∀ st pr fb2, Event.executeStep st pr fb2 ∈
        (stepsLoop agSecondTry cfgDef t0 [] 2
          ([] ++ [srAgain1, srAgain2]) [srAgain2]).1 →
      ∃ suf, pr = ([] ++ [srAgain2]) ++ suf :=
  claim_C6_approved_roundtrips agSecondTry cfgDef t0 (PyVal.dict stepS1) stepS1
    [] 1 [] []
    [Event.executeStep stepS1 [] PyVal.none,
      Event.reviewStep stepS1 outDone 1,
      Event.executeStep stepS1 [] (PyVal.str "again"),
      Event.reviewStep stepS1 outDone 2]
    [srAgain1, srAgain2] [srAgain2] false srAgain2
    rfl rfl (List.mem_cons_of_mem srAgain1 (List.mem_cons_self srAgain2 [])) rfl

/-- C2 counterexample: with a replan after one executed attempt and a
second approved plan whose single step is approved at once, two execution
attempts happen during the task (two execute-step events in the trace),
but the returned result retains only the one attempt made under the final
plan — the attempt made under the abandoned first plan is not in
`step_results`, contradicting the claimed full task-lifetime history. -/
theorem claim_C2_counterexample :
    (run_task agReplanOnce cfgDef t0).2 = Except.ok resReplanOnce ∧
    resReplanOnce.step_results.length = 1 ∧
    (run_task agReplanOnce cfgDef t0).1.countP Event.isExecuteStep = 2 ∧
    (1 : Nat) ≠ 2 :=
  ⟨rfl, rfl, rfl, by decide⟩

/-- C2 as amended: the `TaskRunResult` of a successful run is exactly the
result of the final (successful) plan execution, and its step results
correspond one to one, in order, to the execution attempts of that final
execution — every attempt of every step of the final approved plan,
rejected and approved alike; attempts made under plan attempts abandoned
by a replan signal are not retained. -/
theorem claim_C2_final_history (ag : Agents) (cfg : Config) (t : Task)
    (r : TaskRunResult) (h : (run_task ag cfg t).2 = Except.ok r) :
    ∃ plan evs2 xfb,
      executePlan ag cfg t plan = (evs2, Except.ok (Option.some r, xfb)) ∧
      r.step_results.map StepResult.attemptData =
        evs2.filterMap Event.attemptData := by
  obtain ⟨plan, evs2, xfb, hE⟩ := planLoop_ok_origin ag cfg t
    cfg.max_plan_iterations PyVal.none Option.none 0 r h
  exact ⟨plan, evs2, xfb, hE, executePlan_attemptData ag cfg t plan evs2 r xfb hE⟩

/-- Witness for C2 as amended: on the second-try fixture the two attempts
of the final execution (one rejected, one approved) are both retained and
match the trace. -/
theorem claim_C2_witness :
    ∃ plan evs2 xfb,
      executePlan agSecondTry cfgDef t0 plan =
        (evs2, Except.ok (Option.some resSecondTry, xfb)) ∧
      resSecondTry.step_results.map StepResult.attemptData =
        evs2.filterMap Event.attemptData :=
  claim_C2_final_history agSecondTry cfgDef t0 resSecondTry rfl

/-- C3 counterexample: a step review with `requires_replan = true`,
`approved = false` and no feedback makes the next plan proposal carry the
default replan message, not the (falsy) feedback of the rejecting
review — the feedback of the rejecting review is not what is passed. -/
theorem claim_C3_counterexample :
    (run_task agSilentReplan cfgDef t0).1 =
      [Event.proposePlan PyVal.none Option.none,
       Event.reviewPlan planS1 1,
       Event.executeStep stepS1 [] PyVal.none,
       Event.reviewStep stepS1 outDone 1,
       Event.proposePlan
         (PyVal.str "Reviewer requested a re-plan during execution.")
         (Option.some planS1),
       Event.reviewPlan planS2 2,
       Event.executeStep stepS2 [] PyVal.none,
       Event.reviewStep stepS2 outDone 1,
       Event.finalReview planS2 [srS2ok]] ∧
    agSilentReplan.review_step t0 stepS1 outDone 1 = revReplanSilent ∧
    dictGet revReplanSilent "feedback" = PyVal.none ∧
    PyVal.str "Reviewer requested a re-plan during execution." ≠ PyVal.none :=
  ⟨rfl, rfl, rfl, fun hcon => PyVal.noConfusion hcon⟩

/-- C3 as amended: a step review with `requires_replan = true` and
`approved = false` ends the attempts of that step and aborts every later
step of the plan attempt — the step loop returns the replan signal at
once, carrying the feedback of the rejecting review; and when the replan
bound allows continuing, the plan loop with fuel remaining resumes
planning, its next proposal carrying that feedback when truthy and the
default replan message otherwise, with the replanned plan as the previous
plan. -/
theorem claim_C3_replan_aborts :
    (∀ (ag : Agents) (cfg : Config) (t : Task) (raw : PyVal) (d : Dict)
        (rest : List PyVal) (idx : Nat) (all app : List StepResult)
        (evs : List Event) (attempts app2 : List StepResult) (rr : Bool)
        (sr : StepResult),
      pyDictOf raw = Except.ok d →
      stepAttemptLoop ag t
          (dictSetdefault d "id" (.str ("step-" ++ toString idx)))
          app PyVal.none 1 cfg.max_step_iterations = (evs, attempts, app2, rr) →
      sr ∈ attempts →
      (dictGet sr.review "approved").truthy = false →
      (dictGet sr.review "requires_replan").truthy = true →
      attempts.getLast? = Option.some sr ∧
      stepsLoop ag cfg t (raw :: rest) idx all app =
        (evs, Except.ok (PlanExec.replan (dictGet sr.review "feedback")))) ∧
    (∀ (ag : Agents) (cfg : Config) (t : Task) (fb : PyVal)
        (prev : Option Dict) (p fuel : Nat) (plan : Dict) (evs2 : List Event)
        (efb : PyVal),
      plan = ag.propose_plan t fb prev →
      (dictGet (ag.review_plan t plan (p + 1)) "approved").truthy = true →
      executePlan ag cfg t plan = (evs2, Except.ok (Option.none, efb)) →
      1 ≤ cfg.max_replan_attempts →
      planLoop ag cfg t fb prev p (fuel + 1 + 1) =
        ([Event.proposePlan fb prev, Event.reviewPlan plan (p + 1)] ++ evs2 ++
          (planLoop ag cfg t
            (if efb.truthy = true then efb
             else PyVal.str "Reviewer requested a re-plan during execution.")
            (Option.some plan) (p + 1) (fuel + 1)).1,
         (planLoop ag cfg t
            (if efb.truthy = true then efb
             else PyVal.str "Reviewer requested a re-plan during execution.")
            (Option.some plan) (p + 1) (fuel + 1)).2) ∧
      (planLoop ag cfg t
          (if efb.truthy = true then efb
           else PyVal.str "Reviewer requested a re-plan during execution.")
          (Option.some plan) (p + 1) (fuel + 1)).1.head? =
        Option.some (Event.proposePlan
          (if efb.truthy = true then efb
           else PyVal.str "Reviewer requested a re-plan during execution.")
          (Option.some plan))) := by
  constructor
  · intro ag cfg t raw d rest idx all app evs attempts app2 rr sr hraw hsl
      hmem hap hrp
    obtain rfl := pyDictOf_ok raw d hraw
    have hlast : attempts.getLast? = Option.some sr := by
      have := stepAttemptLoop_memRejected ag t
        (dictSetdefault d "id" (.str ("step-" ++ toString idx)))
        cfg.max_step_iterations app PyVal.none 1 sr (by rw [hsl]; exact hmem)
        hap hrp
      rw [hsl] at this
      exact this
    have hrr := stepAttemptLoop_lastRejected ag t
      (dictSetdefault d "id" (.str ("step-" ++ toString idx)))
      cfg.max_step_iterations app PyVal.none 1 sr (by rw [hsl]; exact hlast)
      hap hrp
    rw [hsl] at hrr
    dsimp only at hrr
    refine ⟨hlast, ?_⟩
    simp only [stepsLoop, pyDictOf, hsl]
    rw [hrr, if_pos rfl, hlast]
  · intro ag cfg t fb prev p fuel plan evs2 efb hplan happ hexec hbound
    subst hplan
    constructor
    · simp only [planLoop]
      rw [happ, Bool.not_true, if_neg Bool.false_ne_true, hexec]
      dsimp only
      rw [if_neg (by omega)]
    · exact planLoop_head ag cfg t _ _ (p + 1) fuel

/-- Witness for C3 as amended: the loud-replan fixture aborts the step
loop with the review feedback and resumes planning with that feedback. -/
theorem claim_C3_witness :
    (([srReplanLoud] : List StepResult).getLast? = Option.some srReplanLoud ∧
      stepsLoop agReplanOnce cfgDef t0 [PyVal.dict stepS1] 1 [] [] =
      ([Event.executeStep stepS1 [] PyVal.none,
        Event.reviewStep stepS1 outDone 1],
       Except.ok (PlanExec.replan (dictGet srReplanLoud.review "feedback")))) ∧
    (planLoop agReplanOnce cfgDef t0 PyVal.none Option.none 0 (1 + 1 + 1) =
      ([Event.proposePlan PyVal.none Option.none,
        Event.reviewPlan planS1 1] ++
          [Event.executeStep stepS1 [] PyVal.none,
            Event.reviewStep stepS1 outDone 1] ++
          (planLoop agReplanOnce cfgDef t0
            (if (PyVal.str "redo").truthy = true then PyVal.str "redo"
             else PyVal.str "Reviewer requested a re-plan during execution.")
            (Option.some planS1) (0 + 1) (1 + 1)).1,
       (planLoop agReplanOnce cfgDef t0
          (if (PyVal.str "redo").truthy = true then PyVal.str "redo"
           else PyVal.str "Reviewer requested a re-plan during execution.")
          (Option.some planS1) (0 + 1) (1 + 1)).2) ∧
      (planLoop agReplanOnce cfgDef t0
          (if (PyVal.str "redo").truthy = true then PyVal.str "redo"
           else PyVal.str "Reviewer requested a re-plan during execution.")
          (Option.some planS1) (0 + 1) (1 + 1)).1.head? =
        Option.some (Event.proposePlan
          (if (PyVal.str "redo").truthy = true then PyVal.str "redo"
           else PyVal.str "Reviewer requested a re-plan during execution.")
          (Option.some planS1))) :=
  ⟨claim_C3_replan_aborts.1 agReplanOnce cfgDef t0 (PyVal.dict stepS1) stepS1
      [] 1 [] []
      [Event.executeStep stepS1 [] PyVal.none,
        Event.reviewStep stepS1 outDone 1]
      [srReplanLoud] [] true srReplanLoud rfl rfl
      (List.mem_cons_self srReplanLoud []) rfl rfl,
    claim_C3_replan_aborts.2 agReplanOnce cfgDef t0 PyVal.none Option.none 0 1
      planS1
      [Event.executeStep stepS1 [] PyVal.none,
        Event.reviewStep stepS1 outDone 1]
      (PyVal.str "redo") rfl rfl rfl (by decide)⟩

/-- C5: when the plan review rejects the proposal exactly `k` times with
`k < max_plan_iterations` and then approves, the run performs exactly
`k + 1` plan proposals and `k + 1` plan reviews before any step execution
(the execution trace of the approved plan contains no planning events),
and each rejected plan is carried into the next proposal as the previous
plan together with the rejecting feedback. -/
theorem claim_C5_plan_roundtrips (ag : Agents) (cfg : Config) (t : Task)
    (k : Nat) (hk : k + 1 ≤ cfg.max_plan_iterations)
    (hrej : ∀ j, j < k → (dictGet (planReviewAt ag t j) "approved").truthy = false)
    (happ : (dictGet (planReviewAt ag t k) "approved").truthy = true) :
    ∃ rest, (run_task ag cfg t).1 =
        planSeg ag t 0 (k + 1) ++
          (executePlan ag cfg t (proposedPlan ag t k)).1 ++ rest ∧
      (planSeg ag t 0 (k + 1)).countP Event.isProposePlan = k + 1 ∧
      (planSeg ag t 0 (k + 1)).countP Event.isReviewPlan = k + 1 ∧
      (∀ e ∈ (executePlan ag cfg t (proposedPlan ag t k)).1,
        e.isProposePlan = false ∧ e.isReviewPlan = false) ∧
      ∀ j, j < k →
        fbAt ag t (j + 1) = dictGet (planReviewAt ag t j) "feedback" ∧
        prevAt ag t (j + 1) = Option.some (proposedPlan ag t j) := by
  obtain ⟨rest, hrest⟩ := planLoop_rejectPrefix ag cfg t k 0
    cfg.max_plan_iterations hk (fun j hj1 hj2 => hrej j (by omega))
    (by rw [Nat.zero_add]; exact happ)
  rw [Nat.zero_add] at hrest
  exact ⟨rest, hrest, planSeg_countPropose ag t (k + 1) 0,
    planSeg_countReview ag t (k + 1) 0,
    executePlan_no_plan_events ag cfg t (proposedPlan ag t k),
    fun j hj => ⟨rfl, rfl⟩⟩

/-- Witness for C5: one rejection then an approval gives exactly two
proposals and two reviews before final review of the zero-step plan. -/
theorem claim_C5_witness :
    ∃ rest, (run_task agRejectThenApprove cfgDef t0).1 =
        planSeg agRejectThenApprove t0 0 (1 + 1) ++
          (executePlan agRejectThenApprove cfgDef t0
            (proposedPlan agRejectThenApprove t0 1)).1 ++ rest ∧
      (planSeg agRejectThenApprove t0 0 (1 + 1)).countP
          Event.isProposePlan = 1 + 1 ∧
      (planSeg agRejectThenApprove t0 0 (1 + 1)).countP
          Event.isReviewPlan = 1 + 1 ∧
      (∀ e ∈ (executePlan agRejectThenApprove cfgDef t0
          (proposedPlan agRejectThenApprove t0 1)).1,
        e.isProposePlan = false ∧ e.isReviewPlan = false) ∧
      ∀ j, j < 1 →
        fbAt agRejectThenApprove t0 (j + 1) =
          dictGet (planReviewAt agRejectThenApprove t0 j) "feedback" ∧
        prevAt agRejectThenApprove t0 (j + 1) =
          Option.some (proposedPlan agRejectThenApprove t0 j) :=
  claim_C5_plan_roundtrips agRejectThenApprove cfgDef t0 1 (by decide)
    (fun j hj => by
      have hj0 : j = 0 := by omega
      subst hj0
      rfl)
    rfl

/-- C1 counterexample: with one allowed plan iteration and the default
replan allowance, a replan signal (a step review with
`requires_replan = true`, `approved = false`) does not return control to
planning — the run ends with the plan-attempts bound error and only one
plan proposal ever happens, although the replan signals in the cycle (one)
do not exceed `max_replan_attempts` (two). -/
theorem claim_C1_counterexample :
    agReplanOnce.review_step t0 stepS1 outDone 1 = revReplanLoud ∧
    (dictGet revReplanLoud "requires_replan").truthy = true ∧
    (dictGet revReplanLoud "approved").truthy = false ∧
    1 ≤ cfgOnePlan.max_replan_attempts ∧
    (run_task agReplanOnce cfgOnePlan t0).1 =
      [Event.proposePlan PyVal.none Option.none,
       Event.reviewPlan planS1 1,
       Event.executeStep stepS1 [] PyVal.none,
       Event.reviewStep stepS1 outDone 1] ∧
    (run_task agReplanOnce cfgOnePlan t0).2 =
      Except.error (WfError.planBound "t") ∧
    (run_task agReplanOnce cfgOnePlan t0).1.countP Event.isProposePlan = 1 :=
  ⟨rfl, rfl, rfl, by decide, rfl, rfl, rfl⟩

/-- C1 as amended: at a replan signal the plan-approval cycle holds
exactly one replan signal (the signal itself exits the cycle); when that
count exceeds `max_replan_attempts` (that is, when the bound is zero),
`run_task` raises the fatal replan-bound error naming the task; otherwise
the engine returns to planning when a plan attempt remains, and raises the
fatal plan-attempts bound error when none does.  The remaining unexecuted
steps are discarded in every case: only the events of the executed prefix
appear before the next planning round or the error. -/
theorem claim_C1_replan_bound (ag : Agents) (cfg : Config) (t : Task)
    (fb : PyVal) (prev : Option Dict) (p fuel : Nat) (plan : Dict)
    (evs2 : List Event) (efb : PyVal)
    (hplan : plan = ag.propose_plan t fb prev)
    (happ : (dictGet (ag.review_plan t plan (p + 1)) "approved").truthy = true)
    (hexec : executePlan ag cfg t plan = (evs2, Except.ok (Option.none, efb))) :
    (cfg.max_replan_attempts = 0 →
      planLoop ag cfg t fb prev p (fuel + 1) =
        ([Event.proposePlan fb prev, Event.reviewPlan plan (p + 1)] ++ evs2,
         Except.error (WfError.replanBound t.name))) ∧
    (1 ≤ cfg.max_replan_attempts → fuel = 0 →
      planLoop ag cfg t fb prev p (fuel + 1) =
        ([Event.proposePlan fb prev, Event.reviewPlan plan (p + 1)] ++ evs2,
         Except.error (WfError.planBound t.name))) ∧
    (1 ≤ cfg.max_replan_attempts → ∀ f2, fuel = f2 + 1 →
      (planLoop ag cfg t fb prev p (fuel + 1)).1 =
        [Event.proposePlan fb prev, Event.reviewPlan plan (p + 1)] ++ evs2 ++
          (planLoop ag cfg t
            (if efb.truthy = true then efb
             else PyVal.str "Reviewer requested a re-plan during execution.")
            (Option.some plan) (p + 1) fuel).1 ∧
      (planLoop ag cfg t
          (if efb.truthy = true then efb
           else PyVal.str "Reviewer requested a re-plan during execution.")
          (Option.some plan) (p + 1) fuel).1.head? =
        Option.some (Event.proposePlan
          (if efb.truthy = true then efb
           else PyVal.str "Reviewer requested a re-plan during execution.")
          (Option.some plan))) := by
  subst hplan
  refine ⟨?_, ?_, ?_⟩
  · intro h0
    simp only [planLoop]
    rw [happ, Bool.not_true, if_neg Bool.false_ne_true, hexec]
    dsimp only
    rw [if_pos (by omega)]
  · intro hge hf
    subst hf
    simp only [planLoop]
    rw [happ, Bool.not_true, if_neg Bool.false_ne_true, hexec]
    dsimp only
    rw [if_neg (by omega)]
    simp [planLoop]
  · intro hge f2 hf
    subst hf
    constructor
    · simp only [planLoop]
      rw [happ, Bool.not_true, if_neg Bool.false_ne_true, hexec]
      dsimp only
      rw [if_neg (by omega)]
    · exact planLoop_head ag cfg t _ _ (p + 1) f2

/-- Witness for C1 as amended: with a zero replan allowance the fixture
run raises the replan-bound error naming the task. -/
theorem claim_C1_witness :
    planLoop agReplanOnce cfgNoReplan t0 PyVal.none Option.none 0 (2 + 1) =
      ([Event.proposePlan PyVal.none Option.none, Event.reviewPlan planS1 1] ++
        [Event.executeStep stepS1 [] PyVal.none,
          Event.reviewStep stepS1 outDone 1],
       Except.error (WfError.replanBound t0.name)) :=
  (claim_C1_replan_bound agReplanOnce cfgNoReplan t0 PyVal.none Option.none 0 2
    planS1
    [Event.executeStep stepS1 [] PyVal.none, Event.reviewStep stepS1 outDone 1]
    (PyVal.str "redo") rfl rfl rfl).1 rfl

end AutomationFramework










